import Mathlib

/-!
# Adaptive cruise controller (`ACC.h`): embedding and verified properties

The controller of `ACC.h` is a single record of gains, parameters, a mode tag and
six loop-state scalars, mutated by `Step`. It is embedded here with explicit
state passing: a C++ member function that mutates `*this` and returns a `double`
becomes a Lean function from the record to a pair (returned value, new record).

Numbers. The file carries two embeddings of the same source.

* `ACC`: every `double` is an exact rational (`ℚ`), so the arithmetic is that of
  the formulas in the source without rounding. Non-finite values (NaN,
  ±infinity) have no counterpart, and a division by `dt` is only meaningful for
  `dt ≠ 0`. The properties decided by the control flow of `UpdateMode` and
  `Step` (mode transitions, which fields a tick writes) are proved here; the
  comparisons they rest on are the source's own.
* `ACC64`: every `double` is an IEEE 754 binary64 value (`F64`) with signed
  zeros, infinities and NaN, and every operation rounds its exact result to
  nearest, ties to even. The properties that depend on rounding, overflow,
  division by zero or NaN (the range of the command, the sign of the braking
  distance, monotonicity of the desired spacing, the inner-loop error, calls with
  `dt ≤ 0`) are proved here.
-/

/-- The three operating modes, `enum class ACCMode`. -/
inductive ACCMode where
  | Cruise
  | Headway
  | Override
  deriving DecidableEq, Repr

/-- The data members of `class ACC`, in declaration order. -/
structure ACC where
  Kp_c : ℚ
  Ki_c : ℚ
  Kd_c : ℚ
  Kp_h : ℚ
  Ki_h : ℚ
  Kd_h : ℚ
  Kp_v : ℚ
  Ki_v : ℚ
  headway : ℚ
  d0 : ℚ
  mu : ℚ
  safety_factor : ℚ
  d_safety : ℚ
  a_max : ℚ
  a_min : ℚ
  margin : ℚ
  mode : ACCMode
  integ_c : ℚ
  integ_h : ℚ
  integ_v : ℚ
  prev_err_c : ℚ
  prev_err_h : ℚ
  prev_err_v : ℚ

/-- The function `std::clamp(v, lo, hi)` of `<algorithm>`:
`(v < lo) ? lo : (hi < v) ? hi : v`. -/
def clamp (v lo hi : ℚ) : ℚ :=
  if v < lo then lo else if hi < v then hi else v

namespace ACC

/-- The constructor `ACC::ACC` (named `init` here, the type takes the name
`ACC`): the sixteen gains and parameters are taken from
the arguments, the mode starts at `Cruise` and the loop state at zero. -/
def init (Kp_c_ Ki_c_ Kd_c_ Kp_h_ Ki_h_ Kd_h_ Kp_v_ Ki_v_ headway_ d0_ mu_
    safety_factor_ d_safety_ a_max_ a_min_ margin_ : ℚ) : ACC where
  Kp_c := Kp_c_
  Ki_c := Ki_c_
  Kd_c := Kd_c_
  Kp_h := Kp_h_
  Ki_h := Ki_h_
  Kd_h := Kd_h_
  Kp_v := Kp_v_
  Ki_v := Ki_v_
  headway := headway_
  d0 := d0_
  mu := mu_
  safety_factor := safety_factor_
  d_safety := d_safety_
  a_max := a_max_
  a_min := a_min_
  margin := margin_
  mode := ACCMode.Cruise
  integ_c := 0
  integ_h := 0
  integ_v := 0
  prev_err_c := 0
  prev_err_h := 0
  prev_err_v := 0

/-- The constructor called with no argument: every parameter takes the default
value written in the constructor's declaration. -/
def defaults : ACC :=
  ACC.init (4/10) (5/100) (1/100) (6/10) (8/100) (2/100) (8/10) (1/10)
    (12/10) 5 (9/10) (9/10) 5 2 (-8) 10

/-- Member function `ACC::AvailableDecel`: `mu * g * safety_factor` with `g = 9.81`. -/
def AvailableDecel (s : ACC) : ℚ :=
  let g : ℚ := 981 / 100
  s.mu * g * s.safety_factor

/-- Member function `ACC::BrakingDistance`: zero unless the ego closes on the
lead, else the kinematic stopping distance plus the buffer `d_safety`. -/
def BrakingDistance (s : ACC) (v_ego v_lead : ℚ) : ℚ :=
  let dv := v_ego - v_lead
  if dv ≤ 0 then 0
  else (dv * dv) / (2 * s.AvailableDecel) + s.d_safety

/-- Member function `ACC::DesiredSpacing`: `d0 + headway * v_ego`. -/
def DesiredSpacing (s : ACC) (v_ego : ℚ) : ℚ :=
  s.d0 + s.headway * v_ego

/-- Member function `ACC::CruisePID`: returns the clamped command and the mutated controller. -/
def CruisePID (s : ACC) (v_set v_ego dt : ℚ) : ℚ × ACC :=
  let err := v_set - v_ego
  let integ_c1 := s.integ_c + err * dt
  let deriv := (err - s.prev_err_c) / dt
  let a := s.Kp_c * err + s.Ki_c * integ_c1 + s.Kd_c * deriv
  (clamp a s.a_min s.a_max, { s with integ_c := integ_c1, prev_err_c := err })

/-- Member function `ACC::HeadwayOuter`: returns the unclamped speed delta and the mutated
controller. -/
def HeadwayOuter (s : ACC) (dist v_ego dt : ℚ) : ℚ × ACC :=
  let d_des := s.DesiredSpacing v_ego
  let err := dist - d_des
  let integ_h1 := s.integ_h + err * dt
  let deriv := (err - s.prev_err_h) / dt
  (s.Kp_h * err + s.Ki_h * integ_h1 + s.Kd_h * deriv,
    { s with integ_h := integ_h1, prev_err_h := err })

/-- Member function `ACC::SpeedInner`: returns the clamped command and the mutated controller. -/
def SpeedInner (s : ACC) (v_sp v_ego dt : ℚ) : ℚ × ACC :=
  let err := v_sp - v_ego
  let integ_v1 := s.integ_v + err * dt
  let a := s.Kp_v * err + s.Ki_v * integ_v1
  (clamp a s.a_min s.a_max, { s with integ_v := integ_v1 })

/-- Member function `ACC::UpdateMode`: the mode switching logic, a `switch` over the current
mode. -/
def UpdateMode (s : ACC) (dist v_ego v_lead : ℚ) : ACC :=
  let d_brake := s.BrakingDistance v_ego v_lead
  let d_des := s.DesiredSpacing v_ego
  match s.mode with
  | ACCMode.Cruise =>
    if dist < d_des + 5 then { s with mode := ACCMode.Headway } else s
  | ACCMode.Headway =>
    if dist < d_brake then { s with mode := ACCMode.Override }
    else if dist > d_des + 15 then { s with mode := ACCMode.Cruise }
    else s
  | ACCMode.Override =>
    if dist > d_brake + 5 then { s with mode := ACCMode.Headway } else s

/-- Member function `ACC::Step`: mode update, then the control law of the resolved mode. The
result is the returned acceleration and the controller after the call. -/
def Step (s : ACC) (dist v_ego v_lead v_set dt : ℚ) : ℚ × ACC :=
  let s1 := s.UpdateMode dist v_ego v_lead
  if s1.mode = ACCMode.Override then (s1.a_min, s1)
  else if s1.mode = ACCMode.Cruise then s1.CruisePID v_set v_ego dt
  else
    let r := s1.HeadwayOuter dist v_ego dt
    let dv := r.1
    let v_sp := v_ego + dv
    r.2.SpeedInner v_sp v_ego dt

/-- The controller after `n` consecutive `Step` calls with the same arguments,
as the simulation loop issues them. -/
def StepN (s : ACC) (dist v_ego v_lead v_set dt : ℚ) : Nat → ACC
  | 0 => s
  | n + 1 => ((StepN s dist v_ego v_lead v_set dt n).Step dist v_ego v_lead v_set dt).2

end ACC


/-- The controller reached from the default one by a tick at standstill with a
gap of 8: the gap is below the desired spacing plus 5, so it is in `Headway`. -/
def ACC.followingAtRest : ACC :=
  (ACC.defaults.Step 8 0 0 0 1).2

/-- The controller reached from `followingAtRest` by a tick with gap 58, ego
speed 30 and a stopped lead: the gap is below the braking distance, so it is in
`Override`. -/
def ACC.brakingHard : ACC :=
  (ACC.followingAtRest.Step 58 30 0 27 (1 / 20)).2

/-- The controller after `n` consecutive `UpdateMode` calls with the same
arguments. -/
def ACC.UpdateModeN (s : ACC) (dist v_ego v_lead : ℚ) : Nat → ACC
  | 0 => s
  | n + 1 => (ACC.UpdateModeN s dist v_ego v_lead n).UpdateMode dist v_ego v_lead

/-- The controller after a sequence of `Step` calls, one call per element
`(dist, v_ego, v_lead, v_set, dt)` of the list, in order. -/
def ACC.StepSeq (s : ACC) : List (ℚ × ℚ × ℚ × ℚ × ℚ) → ACC
  | [] => s
  | (dist, v_ego, v_lead, v_set, dt) :: rest =>
    ACC.StepSeq (s.Step dist v_ego v_lead v_set dt).2 rest

/-- The sixteen gains and parameters of a controller, the data members declared
under `PID gains` and `Parameters`, in declaration order. -/
def ACC.params (s : ACC) : List ℚ :=
  [s.Kp_c, s.Ki_c, s.Kd_c, s.Kp_h, s.Ki_h, s.Kd_h, s.Kp_v, s.Ki_v,
    s.headway, s.d0, s.mu, s.safety_factor, s.d_safety, s.a_max, s.a_min, s.margin]

/-- The mode that `UpdateMode` resolves for the controller `s` put in mode `m`:
the transition function of the `switch`, read off the embedding of `UpdateMode`. -/
def ACC.nextMode (s : ACC) (dist v_ego v_lead : ℚ) (m : ACCMode) : ACCMode :=
  ({ s with mode := m }.UpdateMode dist v_ego v_lead).mode

/-! ## Binary64 arithmetic

The claims whose truth depends on rounding, overflow or NaN are settled on a
second embedding, in which a `double` is an IEEE 754 binary64 value and every
operation rounds its exact result to nearest, ties to even, one operation at a
time (the default rounding mode, no fused multiply-add). -/

/-- A `double`. A finite value is a sign and a magnitude counted in units of
`2^-1074`, the smallest positive double: every finite double is
`± mag · 2^-1074` with `mag < 2^2098`, and the two zeros are `fin false 0` and
`fin true 0`. The type has more terms than there are doubles (a double's
magnitude is below `2^2098` and on the binary64 grid); `round` only returns
magnitudes below `2^2098`, and a statement that needs its arguments to be in
that range says so with `inRange`. -/
inductive F64 where
  | fin (neg : Bool) (mag : Nat)
  | inf (neg : Bool)
  | nan
  deriving DecidableEq, Repr

namespace F64

/-- The number of units in `1.0`: `2^1074`. -/
def unitsInOne : Nat := 2 ^ 1074

/-- The magnitude of `2^1024` in units, `2^2098`: a rounded magnitude that reaches
it has overflowed. -/
def overflowMag : Nat := 2 ^ 2098

/-- Floor of the binary logarithm of `n` by repeated halving (0 for `n < 2`); the
first argument bounds the number of halvings. -/
def log2Fuel : Nat → Nat → Nat
  | 0, _ => 0
  | fuel + 1, n => if n < 2 then 0 else log2Fuel fuel (n / 2) + 1

/-- The integer nearest to `a / d`, ties to the even one. -/
def roundHalfEven (a d : Nat) : Nat :=
  if 2 * (a % d) < d then a / d
  else if d < 2 * (a % d) then a / d + 1
  else if (a / d) % 2 = 0 then a / d
  else a / d + 1

/-- Rounding of a magnitude: for the exact value `(a / d) · 2^-1074`, the
magnitude in units of `2^-1074` of the nearest point of the binary64 grid. With
`p` the floor of the binary logarithm of `a / d`, the grid spacing there is
`2^(p - 52)` units, and one unit below `2^53` units (subnormals and the first
normal binade). -/
def roundMag (a d : Nat) : Nat :=
  roundHalfEven a (d * 2 ^ (log2Fuel (a / d) (a / d) - 52)) *
    2 ^ (log2Fuel (a / d) (a / d) - 52)

/-- Rounding to a double: the rounded magnitude with the given sign, or the
infinity of that sign when it reaches `2^1024`. -/
@[irreducible]
def round (neg : Bool) (a d : Nat) : F64 :=
  if roundMag a d < overflowMag then fin neg (roundMag a d) else inf neg

/-- The position on the number line, in units, of the double that `round`
returns for the magnitude `(a / d) · 2^-1074`: the rounded magnitude, or
`2^2098` where `round` returns an infinity. -/
def roundCapped (a d : Nat) : Nat :=
  min (roundMag a d) overflowMag

/-- The position on the number line of the double nearest to the integer number
of units `k`. -/
def roundInt (k : Int) : Int :=
  if 0 ≤ k then (roundCapped k.toNat 1 : Int) else - (roundCapped (-k).toNat 1 : Int)

/-- Whether a finite magnitude is below `2^1024`, as the magnitude of every
finite double is; true of infinities and NaN. -/
def inRange : F64 → Bool
  | fin _ m => decide (m < overflowMag)
  | _ => true

/-- The double nearest to the rational `n / d`, as the compiler reads a decimal
literal. -/
def ofRat (n : Int) (d : Nat) : F64 :=
  round (decide (n < 0)) (n.natAbs * unitsInOne) d

/-- The double `+0.0`. -/
def zero : F64 := fin false 0

/-- Unary minus. -/
def neg : F64 → F64
  | fin s m => fin (!s) m
  | inf s => inf (!s)
  | nan => nan

/-- Addition `x + y`: the exact sum of two finite values is an integer number of
units and is rounded; an exact zero sum is `+0.0` unless both terms are `-0.0`. -/
def add : F64 → F64 → F64
  | nan, _ => nan
  | _, nan => nan
  | inf s, inf t => if s = t then inf s else nan
  | inf s, fin _ _ => inf s
  | fin _ _, inf t => inf t
  | fin s m, fin t n =>
    if s = t then round s (m + n) 1
    else if n < m then round s (m - n) 1
    else if m < n then round t (n - m) 1
    else fin false 0

/-- Subtraction `x - y`, which is `x + (-y)`. -/
def sub (x y : F64) : F64 := add x (neg y)

/-- Multiplication `x * y`: the exact product of two finite values is
`m · n / 2^1074` units. -/
def mul : F64 → F64 → F64
  | nan, _ => nan
  | _, nan => nan
  | inf s, inf t => inf (xor s t)
  | inf s, fin t n => if n = 0 then nan else inf (xor s t)
  | fin s m, inf t => if m = 0 then nan else inf (xor s t)
  | fin s m, fin t n => round (xor s t) (m * n) unitsInOne

/-- Division `x / y`: the exact quotient of two finite values is
`m · 2^1074 / n` units; a non-zero value over zero is an infinity, `0 / 0` and
`inf / inf` are NaN. -/
def div : F64 → F64 → F64
  | nan, _ => nan
  | _, nan => nan
  | inf _, inf _ => nan
  | inf s, fin t _ => inf (xor s t)
  | fin s _, inf t => fin (xor s t) 0
  | fin s m, fin t n =>
    if n = 0 then (if m = 0 then nan else inf (xor s t))
    else round (xor s t) (m * unitsInOne) n

/-- Whether a double is a NaN. -/
def isNaN : F64 → Bool
  | nan => true
  | _ => false

/-- The position of a double that is not a NaN on the number line, in units of
`2^-1074`; both zeros are at 0 and the infinities at `± 2^2098`. -/
def ord : F64 → Int
  | fin s m => if s then - (m : Int) else (m : Int)
  | inf s => if s then - (overflowMag : Int) else (overflowMag : Int)
  | nan => 0

/-- Whether a double is finite, as `std::isfinite` reads it. -/
def isFinite : F64 → Bool
  | fin _ _ => true
  | _ => false

/-- The sign bit of a double, as `std::signbit` reads it; reported as clear for a
NaN, whose sign no operation here observes. -/
def signBit : F64 → Bool
  | fin s _ => s
  | inf s => s
  | nan => false

/-- The comparison `x < y`, false when either side is a NaN. -/
def lt (x y : F64) : Bool :=
  !x.isNaN && !y.isNaN && decide (x.ord < y.ord)

/-- The comparison `x <= y`, false when either side is a NaN. -/
def le (x y : F64) : Bool :=
  !x.isNaN && !y.isNaN && decide (x.ord ≤ y.ord)

/-- The function `std::clamp(v, lo, hi)` on doubles:
`(v < lo) ? lo : (hi < v) ? hi : v`. -/
def clamp (v lo hi : F64) : F64 :=
  if lt v lo then lo else if lt hi v then hi else v

end F64

/-- The data members of `class ACC` as doubles, in declaration order. -/
structure ACC64 where
  Kp_c : F64
  Ki_c : F64
  Kd_c : F64
  Kp_h : F64
  Ki_h : F64
  Kd_h : F64
  Kp_v : F64
  Ki_v : F64
  headway : F64
  d0 : F64
  mu : F64
  safety_factor : F64
  d_safety : F64
  a_max : F64
  a_min : F64
  margin : F64
  mode : ACCMode
  integ_c : F64
  integ_h : F64
  integ_v : F64
  prev_err_c : F64
  prev_err_h : F64
  prev_err_v : F64

namespace ACC64

/-- The constructor `ACC::ACC` on doubles. -/
def init (Kp_c_ Ki_c_ Kd_c_ Kp_h_ Ki_h_ Kd_h_ Kp_v_ Ki_v_ headway_ d0_ mu_
    safety_factor_ d_safety_ a_max_ a_min_ margin_ : F64) : ACC64 where
  Kp_c := Kp_c_
  Ki_c := Ki_c_
  Kd_c := Kd_c_
  Kp_h := Kp_h_
  Ki_h := Ki_h_
  Kd_h := Kd_h_
  Kp_v := Kp_v_
  Ki_v := Ki_v_
  headway := headway_
  d0 := d0_
  mu := mu_
  safety_factor := safety_factor_
  d_safety := d_safety_
  a_max := a_max_
  a_min := a_min_
  margin := margin_
  mode := ACCMode.Cruise
  integ_c := F64.zero
  integ_h := F64.zero
  integ_v := F64.zero
  prev_err_c := F64.zero
  prev_err_h := F64.zero
  prev_err_v := F64.zero

/-- The constructor called with no argument: each default is the double nearest
to the decimal literal in the constructor's declaration. -/
def defaults : ACC64 :=
  ACC64.init (F64.ofRat 4 10) (F64.ofRat 5 100) (F64.ofRat 1 100)
    (F64.ofRat 6 10) (F64.ofRat 8 100) (F64.ofRat 2 100)
    (F64.ofRat 8 10) (F64.ofRat 1 10)
    (F64.ofRat 12 10) (F64.ofRat 5 1) (F64.ofRat 9 10) (F64.ofRat 9 10)
    (F64.ofRat 5 1) (F64.ofRat 2 1) (F64.ofRat (-8) 1) (F64.ofRat 10 1)

/-- Member function `ACC::AvailableDecel` on doubles: `mu * g * safety_factor`,
evaluated left to right. -/
def AvailableDecel (s : ACC64) : F64 :=
  let g : F64 := F64.ofRat 981 100
  F64.mul (F64.mul s.mu g) s.safety_factor

/-- Member function `ACC::BrakingDistance` on doubles. -/
def BrakingDistance (s : ACC64) (v_ego v_lead : F64) : F64 :=
  let dv := F64.sub v_ego v_lead
  if F64.le dv F64.zero then F64.zero
  else F64.add (F64.div (F64.mul dv dv) (F64.mul (F64.ofRat 2 1) s.AvailableDecel)) s.d_safety

/-- Member function `ACC::DesiredSpacing` on doubles. -/
def DesiredSpacing (s : ACC64) (v_ego : F64) : F64 :=
  F64.add s.d0 (F64.mul s.headway v_ego)

/-- Member function `ACC::CruisePID` on doubles. -/
def CruisePID (s : ACC64) (v_set v_ego dt : F64) : F64 × ACC64 :=
  let err := F64.sub v_set v_ego
  let integ_c1 := F64.add s.integ_c (F64.mul err dt)
  let deriv := F64.div (F64.sub err s.prev_err_c) dt
  let a := F64.add (F64.add (F64.mul s.Kp_c err) (F64.mul s.Ki_c integ_c1))
    (F64.mul s.Kd_c deriv)
  (F64.clamp a s.a_min s.a_max, { s with integ_c := integ_c1, prev_err_c := err })

/-- Member function `ACC::HeadwayOuter` on doubles. -/
def HeadwayOuter (s : ACC64) (dist v_ego dt : F64) : F64 × ACC64 :=
  let d_des := s.DesiredSpacing v_ego
  let err := F64.sub dist d_des
  let integ_h1 := F64.add s.integ_h (F64.mul err dt)
  let deriv := F64.div (F64.sub err s.prev_err_h) dt
  (F64.add (F64.add (F64.mul s.Kp_h err) (F64.mul s.Ki_h integ_h1)) (F64.mul s.Kd_h deriv),
    { s with integ_h := integ_h1, prev_err_h := err })

/-- Member function `ACC::SpeedInner` on doubles. -/
def SpeedInner (s : ACC64) (v_sp v_ego dt : F64) : F64 × ACC64 :=
  let err := F64.sub v_sp v_ego
  let integ_v1 := F64.add s.integ_v (F64.mul err dt)
  let a := F64.add (F64.mul s.Kp_v err) (F64.mul s.Ki_v integ_v1)
  (F64.clamp a s.a_min s.a_max, { s with integ_v := integ_v1 })

/-- Member function `ACC::UpdateMode` on doubles; `x > y` is `y < x`. -/
def UpdateMode (s : ACC64) (dist v_ego v_lead : F64) : ACC64 :=
  let d_brake := s.BrakingDistance v_ego v_lead
  let d_des := s.DesiredSpacing v_ego
  match s.mode with
  | ACCMode.Cruise =>
    if F64.lt dist (F64.add d_des (F64.ofRat 5 1)) then { s with mode := ACCMode.Headway }
    else s
  | ACCMode.Headway =>
    if F64.lt dist d_brake then { s with mode := ACCMode.Override }
    else if F64.lt (F64.add d_des (F64.ofRat 15 1)) dist then { s with mode := ACCMode.Cruise }
    else s
  | ACCMode.Override =>
    if F64.lt (F64.add d_brake (F64.ofRat 5 1)) dist then { s with mode := ACCMode.Headway }
    else s

/-- Member function `ACC::Step` on doubles. -/
def Step (s : ACC64) (dist v_ego v_lead v_set dt : F64) : F64 × ACC64 :=
  let s1 := s.UpdateMode dist v_ego v_lead
  if s1.mode = ACCMode.Override then (s1.a_min, s1)
  else if s1.mode = ACCMode.Cruise then s1.CruisePID v_set v_ego dt
  else
    let r := s1.HeadwayOuter dist v_ego dt
    let dv := r.1
    let v_sp := F64.add v_ego dv
    r.2.SpeedInner v_sp v_ego dt

end ACC64

/-- The default controller on doubles after one tick with gap 50, ego speed
`-2^1023`, a stopped lead, set point `2^1023` and `dt = 0.5`: the speed error
`2^1023 - (-2^1023)` overflows, so `integ_c` and `prev_err_c` are `+inf`. -/
def ACC64.saturated : ACC64 :=
  (ACC64.defaults.Step (F64.ofRat 50 1) (F64.ofRat (-2 ^ 1023) 1) F64.zero
    (F64.ofRat (2 ^ 1023) 1) (F64.ofRat 1 2)).2

/-- The default controller on doubles with the friction coefficient overwritten
by `2^1023`, as `main.cpp` overwrites `mu` with its third argument. -/
def ACC64.hugeFriction : ACC64 :=
  { ACC64.defaults with mu := F64.ofRat (2 ^ 1023) 1 }

/-! ## Auxiliary facts about the embedding -/

/-- The mode update in `Cruise`. -/
theorem ACC.UpdateMode_of_cruise (s : ACC) (dist v_ego v_lead : ℚ)
    (hm : s.mode = ACCMode.Cruise) :
    s.UpdateMode dist v_ego v_lead =
      if dist < s.DesiredSpacing v_ego + 5 then { s with mode := ACCMode.Headway } else s := by
  simp only [ACC.UpdateMode, hm]

/-- The mode update in `Headway`. -/
theorem ACC.UpdateMode_of_headway (s : ACC) (dist v_ego v_lead : ℚ)
    (hm : s.mode = ACCMode.Headway) :
    s.UpdateMode dist v_ego v_lead =
      if dist < s.BrakingDistance v_ego v_lead then { s with mode := ACCMode.Override }
      else if dist > s.DesiredSpacing v_ego + 15 then { s with mode := ACCMode.Cruise }
      else s := by
  simp only [ACC.UpdateMode, hm]

/-- The mode update in `Override`. -/
theorem ACC.UpdateMode_of_override (s : ACC) (dist v_ego v_lead : ℚ)
    (hm : s.mode = ACCMode.Override) :
    s.UpdateMode dist v_ego v_lead =
      if dist > s.BrakingDistance v_ego v_lead + 5 then { s with mode := ACCMode.Headway }
      else s := by
  simp only [ACC.UpdateMode, hm]

/-- The mode update writes the mode field only: the result is the input record
with some mode. -/
theorem ACC.UpdateMode_eq_with_mode (s : ACC) (dist v_ego v_lead : ℚ) :
    s.UpdateMode dist v_ego v_lead =
      { s with mode := (s.UpdateMode dist v_ego v_lead).mode } := by
  cases hm : s.mode
  · rw [ACC.UpdateMode_of_cruise s dist v_ego v_lead hm]
    split_ifs
    · rfl
    · cases s; simp_all
  · rw [ACC.UpdateMode_of_headway s dist v_ego v_lead hm]
    split_ifs
    · rfl
    · rfl
    · cases s; simp_all
  · rw [ACC.UpdateMode_of_override s dist v_ego v_lead hm]
    split_ifs
    · rfl
    · cases s; simp_all

/-- A tick whose resolved mode is `Override` returns `a_min` and the controller
as the mode update left it. -/
theorem ACC.Step_of_resolved_override (s : ACC) (dist v_ego v_lead v_set dt : ℚ)
    (h : (s.UpdateMode dist v_ego v_lead).mode = ACCMode.Override) :
    s.Step dist v_ego v_lead v_set dt =
      ((s.UpdateMode dist v_ego v_lead).a_min, s.UpdateMode dist v_ego v_lead) := by
  simp only [ACC.Step, h, if_true]

/-- A tick whose resolved mode is `Cruise` runs the cruise PID. -/
theorem ACC.Step_of_resolved_cruise (s : ACC) (dist v_ego v_lead v_set dt : ℚ)
    (h : (s.UpdateMode dist v_ego v_lead).mode = ACCMode.Cruise) :
    s.Step dist v_ego v_lead v_set dt =
      (s.UpdateMode dist v_ego v_lead).CruisePID v_set v_ego dt := by
  simp [ACC.Step, h]

/-- A tick whose resolved mode is `Headway` runs the outer PID and feeds the
inner PI loop with `v_ego + dv`. -/
theorem ACC.Step_of_resolved_headway (s : ACC) (dist v_ego v_lead v_set dt : ℚ)
    (h : (s.UpdateMode dist v_ego v_lead).mode = ACCMode.Headway) :
    s.Step dist v_ego v_lead v_set dt =
      (((s.UpdateMode dist v_ego v_lead).HeadwayOuter dist v_ego dt).2).SpeedInner
        (v_ego + ((s.UpdateMode dist v_ego v_lead).HeadwayOuter dist v_ego dt).1) v_ego dt := by
  simp [ACC.Step, h]

/-- The control laws never write the mode: after `Step` the mode is the one the
mode update resolved. -/
theorem ACC.Step_mode (s : ACC) (dist v_ego v_lead v_set dt : ℚ) :
    (s.Step dist v_ego v_lead v_set dt).2.mode = (s.UpdateMode dist v_ego v_lead).mode := by
  cases h : (s.UpdateMode dist v_ego v_lead).mode
  · rw [ACC.Step_of_resolved_cruise s dist v_ego v_lead v_set dt h]
    simpa [ACC.CruisePID] using h
  · rw [ACC.Step_of_resolved_headway s dist v_ego v_lead v_set dt h]
    simpa [ACC.SpeedInner, ACC.HeadwayOuter] using h
  · rw [ACC.Step_of_resolved_override s dist v_ego v_lead v_set dt h]
    exact h

/-- The mode update leaves the acceleration limits as they were. -/
theorem ACC.UpdateMode_limits (s : ACC) (dist v_ego v_lead : ℚ) :
    (s.UpdateMode dist v_ego v_lead).a_min = s.a_min ∧
      (s.UpdateMode dist v_ego v_lead).a_max = s.a_max := by
  rw [ACC.UpdateMode_eq_with_mode]
  exact ⟨rfl, rfl⟩

/-- The mode update leaves the integrators and previous errors as they were. -/
theorem ACC.UpdateMode_loop_state (s : ACC) (dist v_ego v_lead : ℚ) :
    (s.UpdateMode dist v_ego v_lead).integ_c = s.integ_c ∧
    (s.UpdateMode dist v_ego v_lead).integ_h = s.integ_h ∧
    (s.UpdateMode dist v_ego v_lead).integ_v = s.integ_v ∧
    (s.UpdateMode dist v_ego v_lead).prev_err_c = s.prev_err_c ∧
    (s.UpdateMode dist v_ego v_lead).prev_err_h = s.prev_err_h ∧
    (s.UpdateMode dist v_ego v_lead).prev_err_v = s.prev_err_v := by
  rw [ACC.UpdateMode_eq_with_mode]
  exact ⟨rfl, rfl, rfl, rfl, rfl, rfl⟩

/-- A whole tick leaves `d0` and `headway` as they were, so the desired spacing
is the same function before and after it. -/
theorem ACC.Step_DesiredSpacing (s : ACC) (dist v_ego v_lead v_set dt v : ℚ) :
    (s.Step dist v_ego v_lead v_set dt).2.DesiredSpacing v = s.DesiredSpacing v := by
  have hu : (s.UpdateMode dist v_ego v_lead).DesiredSpacing v = s.DesiredSpacing v := by
    rw [ACC.UpdateMode_eq_with_mode]
    rfl
  cases h : (s.UpdateMode dist v_ego v_lead).mode
  · rw [ACC.Step_of_resolved_cruise s dist v_ego v_lead v_set dt h, ← hu]
    rfl
  · rw [ACC.Step_of_resolved_headway s dist v_ego v_lead v_set dt h, ← hu]
    rfl
  · rw [ACC.Step_of_resolved_override s dist v_ego v_lead v_set dt h, ← hu]

/-- In `Cruise` with the gap at or above the desired spacing plus 5, a tick
leaves the mode at `Cruise`. -/
theorem ACC.Step_cruise_hold (s : ACC) (dist v_ego v_lead v_set dt : ℚ)
    (hm : s.mode = ACCMode.Cruise) (hd : s.DesiredSpacing v_ego + 5 ≤ dist) :
    (s.Step dist v_ego v_lead v_set dt).2.mode = ACCMode.Cruise := by
  rw [ACC.Step_mode, ACC.UpdateMode_of_cruise s dist v_ego v_lead hm, if_neg (not_lt.mpr hd)]
  exact hm

/-! ## Mode transitions -/

/-- Claim C2: for every controller whose mode is `Headway` and every input with
`distance < BrakingDistance(v_ego, v_lead)`, the next `Step` call leaves the
mode at `Override` and returns exactly `a_min`. -/
theorem ACC.Step_headway_to_override (s : ACC) (dist v_ego v_lead v_set dt : ℚ)
    (hm : s.mode = ACCMode.Headway) (hd : dist < s.BrakingDistance v_ego v_lead) :
    (s.Step dist v_ego v_lead v_set dt).2.mode = ACCMode.Override ∧
      (s.Step dist v_ego v_lead v_set dt).1 = s.a_min := by
  have hu : (s.UpdateMode dist v_ego v_lead).mode = ACCMode.Override := by
    rw [ACC.UpdateMode_of_headway s dist v_ego v_lead hm, if_pos hd]
  rw [ACC.Step_of_resolved_override s dist v_ego v_lead v_set dt hu]
  exact ⟨hu, (ACC.UpdateMode_limits s dist v_ego v_lead).1⟩

/-- Claim C3: for every `Step` call whose resolved mode is `Override`, the
returned value is `a_min`, and the three integrators and the three previous-error
values are the same after the call as before it. -/
theorem ACC.Step_override_frame (s : ACC) (dist v_ego v_lead v_set dt : ℚ)
    (h : (s.UpdateMode dist v_ego v_lead).mode = ACCMode.Override) :
    (s.Step dist v_ego v_lead v_set dt).1 = s.a_min ∧
    (s.Step dist v_ego v_lead v_set dt).2.integ_c = s.integ_c ∧
    (s.Step dist v_ego v_lead v_set dt).2.integ_h = s.integ_h ∧
    (s.Step dist v_ego v_lead v_set dt).2.integ_v = s.integ_v ∧
    (s.Step dist v_ego v_lead v_set dt).2.prev_err_c = s.prev_err_c ∧
    (s.Step dist v_ego v_lead v_set dt).2.prev_err_h = s.prev_err_h ∧
    (s.Step dist v_ego v_lead v_set dt).2.prev_err_v = s.prev_err_v := by
  rw [ACC.Step_of_resolved_override s dist v_ego v_lead v_set dt h]
  exact ⟨(ACC.UpdateMode_limits s dist v_ego v_lead).1,
    ACC.UpdateMode_loop_state s dist v_ego v_lead⟩

/-- Claim C4: for every controller state and every input, a single `Step` (one
mode update) never takes the mode from `Cruise` directly to `Override` and never
from `Override` directly to `Cruise`. -/
theorem ACC.Step_no_direct_cruise_override (s : ACC) (dist v_ego v_lead v_set dt : ℚ) :
    ¬ (s.mode = ACCMode.Cruise ∧
        (s.Step dist v_ego v_lead v_set dt).2.mode = ACCMode.Override) ∧
    ¬ (s.mode = ACCMode.Override ∧
        (s.Step dist v_ego v_lead v_set dt).2.mode = ACCMode.Cruise) := by
  rw [ACC.Step_mode]
  constructor
  · rintro ⟨hm, h⟩
    rw [ACC.UpdateMode_of_cruise s dist v_ego v_lead hm] at h
    by_cases hd : dist < s.DesiredSpacing v_ego + 5
    · rw [if_pos hd] at h
      exact ACCMode.noConfusion h
    · rw [if_neg hd, hm] at h
      exact ACCMode.noConfusion h
  · rintro ⟨hm, h⟩
    rw [ACC.UpdateMode_of_override s dist v_ego v_lead hm] at h
    by_cases hd : dist > s.BrakingDistance v_ego v_lead + 5
    · rw [if_pos hd] at h
      exact ACCMode.noConfusion h
    · rw [if_neg hd, hm] at h
      exact ACCMode.noConfusion h

/-- Claim C5: for every controller whose mode is `Override`, the mode update
reverts to `Headway` if and only if `distance > BrakingDistance(v_ego, v_lead) + 5`;
in particular a distance equal to `BrakingDistance(v_ego, v_lead) + 5` leaves the
mode at `Override`. -/
theorem ACC.UpdateMode_override_revert (s : ACC) (dist v_ego v_lead : ℚ)
    (hm : s.mode = ACCMode.Override) :
    ((s.UpdateMode dist v_ego v_lead).mode = ACCMode.Headway ↔
        dist > s.BrakingDistance v_ego v_lead + 5) ∧
      (dist = s.BrakingDistance v_ego v_lead + 5 →
        (s.UpdateMode dist v_ego v_lead).mode = ACCMode.Override) := by
  rw [ACC.UpdateMode_of_override s dist v_ego v_lead hm]
  constructor
  · constructor
    · intro h
      by_contra hn
      rw [if_neg hn, hm] at h
      exact ACCMode.noConfusion h
    · intro h
      rw [if_pos h]
  · intro he
    rw [if_neg (by rw [he]; exact lt_irrefl _)]
    exact hm

/-- Claim C6: for every controller whose mode is `Cruise`, the mode update
switches to `Headway` when `distance < DesiredSpacing(v_ego) + 5` and otherwise
leaves the mode at `Cruise`. -/
theorem ACC.UpdateMode_cruise_rule (s : ACC) (dist v_ego v_lead : ℚ)
    (hm : s.mode = ACCMode.Cruise) :
    (dist < s.DesiredSpacing v_ego + 5 →
        (s.UpdateMode dist v_ego v_lead).mode = ACCMode.Headway) ∧
      (¬ dist < s.DesiredSpacing v_ego + 5 →
        (s.UpdateMode dist v_ego v_lead).mode = ACCMode.Cruise) := by
  rw [ACC.UpdateMode_of_cruise s dist v_ego v_lead hm]
  constructor
  · intro h
    rw [if_pos h]
  · intro h
    rw [if_neg h]
    exact hm

/-! ## Concrete evaluations used by the checks at concrete inputs -/

/-- The first tick from the default controller, evaluated: the mode is `Headway`,
the outer loop has integrated the spacing error 3 once, the inner loop the speed
delta 2.1. -/
theorem ACC.followingAtRest_eq : ACC.followingAtRest =
    { ACC.defaults with
      mode := ACCMode.Headway, integ_h := 3, prev_err_h := 3, integ_v := 21 / 10 } := by
  simp [ACC.followingAtRest, ACC.Step, ACC.UpdateMode, ACC.defaults, ACC.init,
    ACC.BrakingDistance, ACC.DesiredSpacing, ACC.HeadwayOuter, ACC.SpeedInner, clamp]
  norm_num
  simp

/-- The second tick, evaluated: the mode is `Override` and nothing else moved. -/
theorem ACC.brakingHard_eq : ACC.brakingHard =
    { ACC.defaults with
      mode := ACCMode.Override, integ_h := 3, prev_err_h := 3, integ_v := 21 / 10 } := by
  rw [ACC.brakingHard, ACC.followingAtRest_eq]
  simp [ACC.Step, ACC.UpdateMode, ACC.defaults, ACC.init,
    ACC.BrakingDistance, ACC.DesiredSpacing, ACC.AvailableDecel]
  norm_num

/-- The state `followingAtRest` is in `Headway`. -/
theorem ACC.followingAtRest_mode : ACC.followingAtRest.mode = ACCMode.Headway := by
  rw [ACC.followingAtRest_eq]

/-- The state `brakingHard` is in `Override`. -/
theorem ACC.brakingHard_mode : ACC.brakingHard.mode = ACCMode.Override := by
  rw [ACC.brakingHard_eq]

/-- With the default parameters, ego speed 30 and a stopped lead, a gap of 58 is
below the braking distance `900 / 15.8922 + 5`. -/
theorem ACC.followingAtRest_gap_unsafe :
    (58 : ℚ) < ACC.followingAtRest.BrakingDistance 30 0 := by
  rw [ACC.followingAtRest_eq]
  norm_num [ACC.BrakingDistance, ACC.AvailableDecel, ACC.defaults, ACC.init]

/-- With the default parameters and ego speed 30, a gap of 58 is above the desired
spacing `5 + 1.2 * 30 = 41` plus 15. -/
theorem ACC.followingAtRest_gap_far :
    (58 : ℚ) > ACC.followingAtRest.DesiredSpacing 30 + 15 := by
  rw [ACC.followingAtRest_eq]
  norm_num [ACC.DesiredSpacing, ACC.defaults, ACC.init]

/-! ## Checks of the transition theorems at concrete inputs -/

/-- From `Headway`, a tick with gap 58, ego speed 30 and a stopped lead ends in
`Override` and returns the default `a_min`. -/
theorem ACC.Step_headway_to_override_witness :
    ACC.followingAtRest.mode = ACCMode.Headway ∧
    (58 : ℚ) < ACC.followingAtRest.BrakingDistance 30 0 ∧
    (ACC.followingAtRest.Step 58 30 0 27 (1 / 20)).2.mode = ACCMode.Override ∧
    (ACC.followingAtRest.Step 58 30 0 27 (1 / 20)).1 = ACC.followingAtRest.a_min :=
  ⟨ACC.followingAtRest_mode, ACC.followingAtRest_gap_unsafe,
    ACC.Step_headway_to_override ACC.followingAtRest 58 30 0 27 (1 / 20)
      ACC.followingAtRest_mode ACC.followingAtRest_gap_unsafe⟩

/-- The tick of the previous check resolves to `Override`; it returns `a_min` and
leaves the loop state, which is not all zero there, untouched. -/
theorem ACC.Step_override_frame_witness :
    (ACC.followingAtRest.UpdateMode 58 30 0).mode = ACCMode.Override ∧
    (ACC.followingAtRest.Step 58 30 0 27 (1 / 20)).1 = ACC.followingAtRest.a_min ∧
    (ACC.followingAtRest.Step 58 30 0 27 (1 / 20)).2.integ_c = ACC.followingAtRest.integ_c ∧
    (ACC.followingAtRest.Step 58 30 0 27 (1 / 20)).2.integ_h = ACC.followingAtRest.integ_h ∧
    (ACC.followingAtRest.Step 58 30 0 27 (1 / 20)).2.integ_v = ACC.followingAtRest.integ_v ∧
    (ACC.followingAtRest.Step 58 30 0 27 (1 / 20)).2.prev_err_c =
      ACC.followingAtRest.prev_err_c ∧
    (ACC.followingAtRest.Step 58 30 0 27 (1 / 20)).2.prev_err_h =
      ACC.followingAtRest.prev_err_h ∧
    (ACC.followingAtRest.Step 58 30 0 27 (1 / 20)).2.prev_err_v =
      ACC.followingAtRest.prev_err_v :=
  have h : (ACC.followingAtRest.UpdateMode 58 30 0).mode = ACCMode.Override := by
    rw [ACC.UpdateMode_of_headway _ 58 30 0 ACC.followingAtRest_mode,
      if_pos ACC.followingAtRest_gap_unsafe]
  ⟨h, ACC.Step_override_frame ACC.followingAtRest 58 30 0 27 (1 / 20) h⟩

/-- In `Override` with equal speeds the braking distance is 0, and a gap of
exactly 5 does not release the override. -/
theorem ACC.UpdateMode_override_revert_witness :
    ACC.brakingHard.mode = ACCMode.Override ∧
    (5 : ℚ) = ACC.brakingHard.BrakingDistance 20 20 + 5 ∧
    (ACC.brakingHard.UpdateMode 5 20 20).mode = ACCMode.Override :=
  have he : (5 : ℚ) = ACC.brakingHard.BrakingDistance 20 20 + 5 := by
    norm_num [ACC.BrakingDistance]
  ⟨ACC.brakingHard_mode, he,
    (ACC.UpdateMode_override_revert ACC.brakingHard 5 20 20 ACC.brakingHard_mode).2 he⟩

/-- The default controller is in `Cruise`; at ego speed 27 the desired spacing is
37.4, so a gap of 40 switches it to `Headway` and a gap of 50 does not. -/
theorem ACC.UpdateMode_cruise_rule_witness :
    ACC.defaults.mode = ACCMode.Cruise ∧
    (40 : ℚ) < ACC.defaults.DesiredSpacing 27 + 5 ∧
    (ACC.defaults.UpdateMode 40 27 27).mode = ACCMode.Headway ∧
    ¬ (50 : ℚ) < ACC.defaults.DesiredSpacing 27 + 5 ∧
    (ACC.defaults.UpdateMode 50 27 27).mode = ACCMode.Cruise :=
  have h40 : (40 : ℚ) < ACC.defaults.DesiredSpacing 27 + 5 := by
    norm_num [ACC.DesiredSpacing, ACC.defaults, ACC.init]
  have h50 : ¬ (50 : ℚ) < ACC.defaults.DesiredSpacing 27 + 5 := by
    norm_num [ACC.DesiredSpacing, ACC.defaults, ACC.init]
  ⟨rfl, h40, (ACC.UpdateMode_cruise_rule ACC.defaults 40 27 27 rfl).1 h40,
    h50, (ACC.UpdateMode_cruise_rule ACC.defaults 50 27 27 rfl).2 h50⟩

/-! ## Leaving `Headway` for `Cruise` -/

/-- Claim C7, as stated, fails: the controller `followingAtRest` is in `Headway`,
the gap 58 at ego speed 30 exceeds the desired spacing plus 15 (56), yet with a
stopped lead the gap is also below the braking distance, the `Override` test
comes first in the `switch`, and the mode update ends in `Override`, not in
`Cruise`. -/
theorem ACC.UpdateMode_headway_far_counterexample :
    ACC.followingAtRest.mode = ACCMode.Headway ∧
    (58 : ℚ) > ACC.followingAtRest.DesiredSpacing 30 + 15 ∧
    (ACC.followingAtRest.UpdateMode 58 30 0).mode = ACCMode.Override ∧
    (ACC.followingAtRest.UpdateMode 58 30 0).mode ≠ ACCMode.Cruise := by
  have h : (ACC.followingAtRest.UpdateMode 58 30 0).mode = ACCMode.Override := by
    rw [ACC.UpdateMode_of_headway _ 58 30 0 ACC.followingAtRest_mode,
      if_pos ACC.followingAtRest_gap_unsafe]
  refine ⟨ACC.followingAtRest_mode, ACC.followingAtRest_gap_far, h, ?_⟩
  rw [h]
  exact fun hc => ACCMode.noConfusion hc

/-- Claim C7, amended: for every controller whose mode is `Headway` and every
input with `distance > DesiredSpacing(v_ego) + 15` and
`distance ≥ BrakingDistance(v_ego, v_lead)`, the mode update switches the mode to
`Cruise`. -/
theorem ACC.UpdateMode_headway_to_cruise (s : ACC) (dist v_ego v_lead : ℚ)
    (hm : s.mode = ACCMode.Headway) (hfar : dist > s.DesiredSpacing v_ego + 15)
    (hsafe : s.BrakingDistance v_ego v_lead ≤ dist) :
    (s.UpdateMode dist v_ego v_lead).mode = ACCMode.Cruise := by
  rw [ACC.UpdateMode_of_headway s dist v_ego v_lead hm, if_neg (not_lt.mpr hsafe), if_pos hfar]

/-- From `Headway`, gap 58 at ego speed 30 behind a lead that is as fast: the
braking distance is 0, the gap exceeds 56, and the mode update returns to
`Cruise`. -/
theorem ACC.UpdateMode_headway_to_cruise_witness :
    ACC.followingAtRest.mode = ACCMode.Headway ∧
    (58 : ℚ) > ACC.followingAtRest.DesiredSpacing 30 + 15 ∧
    ACC.followingAtRest.BrakingDistance 30 30 ≤ 58 ∧
    (ACC.followingAtRest.UpdateMode 58 30 30).mode = ACCMode.Cruise :=
  have hs : ACC.followingAtRest.BrakingDistance 30 30 ≤ 58 := by
    norm_num [ACC.BrakingDistance]
  ⟨ACC.followingAtRest_mode, ACC.followingAtRest_gap_far, hs,
    ACC.UpdateMode_headway_to_cruise ACC.followingAtRest 58 30 30
      ACC.followingAtRest_mode ACC.followingAtRest_gap_far hs⟩

/-! ## Braking distance -/

/-- Claim C8: for every configuration and all speeds, `BrakingDistance(v_ego,
v_lead)` is exactly 0 when `v_ego ≤ v_lead`, and otherwise it is
`(v_ego − v_lead)² / (2 · mu · 9.81 · safety_factor) + d_safety`. -/
theorem ACC.BrakingDistance_formula (s : ACC) (v_ego v_lead : ℚ) :
    s.BrakingDistance v_ego v_lead =
      if v_ego ≤ v_lead then 0
      else (v_ego - v_lead) ^ 2 / (2 * s.mu * (981 / 100) * s.safety_factor) + s.d_safety := by
  unfold ACC.BrakingDistance ACC.AvailableDecel
  by_cases h : v_ego ≤ v_lead
  · rw [if_pos h, if_pos (sub_nonpos.mpr h)]
  · rw [if_neg h, if_neg (fun hc => h (sub_nonpos.mp hc))]
    congr 2
    · ring
    · ring

/-- Claim C9, as stated, fails: with the default configuration
`BrakingDistance(30, 20)` is `100 / 15.8922 + 5 = 11.29239…`, which is more than
`1e-3` away from `11.294`. -/
theorem ACC.BrakingDistance_default_counterexample :
    ¬ (|ACC.defaults.BrakingDistance 30 20 - 11294 / 1000| ≤ 1 / 1000) := by
  have h : ACC.defaults.BrakingDistance 30 20 = 100 / (2 * (79461 / 10000)) + 5 := by
    norm_num [ACC.BrakingDistance, ACC.AvailableDecel, ACC.defaults, ACC.init]
  rw [h, abs_le]
  norm_num

/-- Claim C9, amended: with the default configuration (`safety_factor = 0.9`,
`mu = 0.9`, `d_safety = 5.0`), `BrakingDistance(30, 20)` equals
`100 / (2 · 7.9461) + 5.0`, which is within `1e-3` of `11.292`. -/
theorem ACC.BrakingDistance_default_value :
    ACC.defaults.BrakingDistance 30 20 = 100 / (2 * (79461 / 10000)) + 5 ∧
      |ACC.defaults.BrakingDistance 30 20 - 11292 / 1000| ≤ 1 / 1000 := by
  have h : ACC.defaults.BrakingDistance 30 20 = 100 / (2 * (79461 / 10000)) + 5 := by
    norm_num [ACC.BrakingDistance, ACC.AvailableDecel, ACC.defaults, ACC.init]
  refine ⟨h, ?_⟩
  rw [h, abs_le]
  norm_num

/-! ## Staying in `Cruise` -/

/-- With the gap at or above the desired spacing plus 5, every number of ticks
from a controller in `Cruise` ends in `Cruise`. -/
theorem ACC.StepN_cruise_hold (s : ACC) (dist v_ego v_lead v_set dt : ℚ)
    (hm : s.mode = ACCMode.Cruise) (hd : s.DesiredSpacing v_ego + 5 ≤ dist) (n : Nat) :
    (s.StepN dist v_ego v_lead v_set dt n).mode = ACCMode.Cruise ∧
      (s.StepN dist v_ego v_lead v_set dt n).DesiredSpacing v_ego = s.DesiredSpacing v_ego := by
  induction n with
  | zero => exact ⟨hm, rfl⟩
  | succ k ih =>
    obtain ⟨ihm, ihd⟩ := ih
    constructor
    · exact ACC.Step_cruise_hold _ dist v_ego v_lead v_set dt ihm (by rw [ihd]; exact hd)
    · show ((s.StepN dist v_ego v_lead v_set dt k).Step dist v_ego v_lead v_set dt).2.DesiredSpacing
        v_ego = s.DesiredSpacing v_ego
      rw [ACC.Step_DesiredSpacing, ihd]

/-- Claim C10: a freshly constructed controller starts in `Cruise`, and for every
number of ticks `n`, `n` consecutive `Step` calls with the same inputs satisfying
`distance ≥ DesiredSpacing(v_ego) + 5` (any `v_lead`, `v_set`, `dt > 0`) leave the
mode at `Cruise` after every one of those ticks. -/
theorem ACC.fresh_stays_cruise (Kp_c Ki_c Kd_c Kp_h Ki_h Kd_h Kp_v Ki_v headway d0 mu
    safety_factor d_safety a_max a_min margin dist v_ego v_lead v_set dt : ℚ)
    (_hdt : 0 < dt)
    (hd : (ACC.init Kp_c Ki_c Kd_c Kp_h Ki_h Kd_h Kp_v Ki_v headway d0 mu safety_factor
      d_safety a_max a_min margin).DesiredSpacing v_ego + 5 ≤ dist) :
    (ACC.init Kp_c Ki_c Kd_c Kp_h Ki_h Kd_h Kp_v Ki_v headway d0 mu safety_factor
      d_safety a_max a_min margin).mode = ACCMode.Cruise ∧
    ∀ n : Nat,
      ((ACC.init Kp_c Ki_c Kd_c Kp_h Ki_h Kd_h Kp_v Ki_v headway d0 mu safety_factor
        d_safety a_max a_min margin).StepN dist v_ego v_lead v_set dt n).mode =
          ACCMode.Cruise :=
  ⟨rfl, fun n => (ACC.StepN_cruise_hold _ dist v_ego v_lead v_set dt rfl hd n).1⟩

/-- The default controller at the simulation's starting point (gap 50, ego speed
27, desired spacing 37.4) is in `Cruise` after every number of ticks of
`dt = 0.05`. -/
theorem ACC.fresh_stays_cruise_witness :
    (0 : ℚ) < 1 / 20 ∧ ACC.defaults.DesiredSpacing 27 + 5 ≤ 50 ∧
    ACC.defaults.mode = ACCMode.Cruise ∧
    ∀ n : Nat, (ACC.defaults.StepN 50 27 27 27 (1 / 20) n).mode = ACCMode.Cruise :=
  have hd : ACC.defaults.DesiredSpacing 27 + 5 ≤ 50 := by
    norm_num [ACC.DesiredSpacing, ACC.defaults, ACC.init]
  ⟨by norm_num, hd,
    (ACC.fresh_stays_cruise (4/10) (5/100) (1/100) (6/10) (8/100) (2/100) (8/10) (1/10)
      (12/10) 5 (9/10) (9/10) 5 2 (-8) 10 50 27 27 27 (1 / 20) (by norm_num) hd).1,
    (ACC.fresh_stays_cruise (4/10) (5/100) (1/100) (6/10) (8/100) (2/100) (8/10) (1/10)
      (12/10) 5 (9/10) (9/10) 5 2 (-8) 10 50 27 27 27 (1 / 20) (by norm_num) hd).2⟩

/-! ## Steady cruising -/

/-- One tick of the default controller at gap 50 with both speeds and the set
point at 27: the speed error is 0, so the command is 0 and no field changes. -/
theorem ACC.defaults_steady_tick (dt : ℚ) :
    ACC.defaults.Step 50 27 27 27 dt = (0, ACC.defaults) := by
  have hm : (ACC.defaults.UpdateMode 50 27 27).mode = ACCMode.Cruise := by
    rw [ACC.UpdateMode_of_cruise _ 50 27 27 rfl, if_neg]
    · rfl
    · norm_num [ACC.DesiredSpacing, ACC.defaults, ACC.init]
  have hu : ACC.defaults.UpdateMode 50 27 27 = ACC.defaults := by
    rw [ACC.UpdateMode_eq_with_mode, hm]
    rfl
  rw [ACC.Step_of_resolved_cruise _ 50 27 27 27 dt hm, hu]
  simp [ACC.CruisePID, ACC.defaults, ACC.init, clamp]
  norm_num

/-- Any number of such ticks leaves the default controller as constructed. -/
theorem ACC.defaults_steady_run (dt : ℚ) (n : Nat) :
    ACC.defaults.StepN 50 27 27 27 dt n = ACC.defaults := by
  induction n with
  | zero => rfl
  | succ k ih =>
    show ((ACC.defaults.StepN 50 27 27 27 dt k).Step 50 27 27 27 dt).2 = ACC.defaults
    rw [ih, ACC.defaults_steady_tick]

/-- Claim C11: for a freshly constructed controller with default configuration
and every `dt > 0`, every one of any number of consecutive calls
`Step(distance = 50, v_ego = 27, v_lead = 27, v_set = 27, dt)` keeps the mode at
`Cruise` and returns an acceleration of exactly 0: after `n` such calls, for any
`n`, the next call returns 0 and ends in `Cruise`. -/
theorem ACC.steady_cruise_zero (dt : ℚ) (_hdt : 0 < dt) (n : Nat) :
    ((ACC.defaults.StepN 50 27 27 27 dt n).Step 50 27 27 27 dt).1 = 0 ∧
      ((ACC.defaults.StepN 50 27 27 27 dt n).Step 50 27 27 27 dt).2.mode = ACCMode.Cruise := by
  rw [ACC.defaults_steady_run, ACC.defaults_steady_tick]
  exact ⟨rfl, rfl⟩

/-- At the simulation's step `dt = 0.05`, the 1201st call, like every other,
returns 0 in `Cruise`. -/
theorem ACC.steady_cruise_zero_witness :
    (0 : ℚ) < 1 / 20 ∧
    ((ACC.defaults.StepN 50 27 27 27 (1 / 20) 1200).Step 50 27 27 27 (1 / 20)).1 = 0 ∧
    ((ACC.defaults.StepN 50 27 27 27 (1 / 20) 1200).Step 50 27 27 27 (1 / 20)).2.mode =
      ACCMode.Cruise :=
  ⟨by norm_num, ACC.steady_cruise_zero (1 / 20) (by norm_num) 1200⟩

/-! ## Repeating a tick in `Override` -/

/-- The mode update leaves the parameters read by `BrakingDistance` and
`DesiredSpacing` as they were. -/
theorem ACC.UpdateMode_distances (s : ACC) (dist v_ego v_lead a b : ℚ) :
    (s.UpdateMode dist v_ego v_lead).BrakingDistance a b = s.BrakingDistance a b ∧
      (s.UpdateMode dist v_ego v_lead).DesiredSpacing a = s.DesiredSpacing a := by
  rw [ACC.UpdateMode_eq_with_mode]
  exact ⟨rfl, rfl⟩

/-- A mode update that resolves to `Override` is followed, for the same inputs,
by one that returns the controller unchanged. -/
theorem ACC.UpdateMode_override_stable (s : ACC) (dist v_ego v_lead : ℚ)
    (h : (s.UpdateMode dist v_ego v_lead).mode = ACCMode.Override) :
    (s.UpdateMode dist v_ego v_lead).UpdateMode dist v_ego v_lead =
      s.UpdateMode dist v_ego v_lead := by
  have hb := (ACC.UpdateMode_distances s dist v_ego v_lead v_ego v_lead).1
  have hkeep : ¬ dist > s.BrakingDistance v_ego v_lead + 5 := by
    intro hgt
    cases hm : s.mode
    · rw [ACC.UpdateMode_of_cruise s dist v_ego v_lead hm] at h
      by_cases hd : dist < s.DesiredSpacing v_ego + 5
      · rw [if_pos hd] at h
        exact ACCMode.noConfusion h
      · rw [if_neg hd, hm] at h
        exact ACCMode.noConfusion h
    · rw [ACC.UpdateMode_of_headway s dist v_ego v_lead hm] at h
      by_cases hd : dist < s.BrakingDistance v_ego v_lead
      · linarith
      · rw [if_neg hd] at h
        by_cases hc : dist > s.DesiredSpacing v_ego + 15
        · rw [if_pos hc] at h
          exact ACCMode.noConfusion h
        · rw [if_neg hc, hm] at h
          exact ACCMode.noConfusion h
    · rw [ACC.UpdateMode_of_override s dist v_ego v_lead hm] at h
      rw [if_pos hgt] at h
      exact ACCMode.noConfusion h
  rw [ACC.UpdateMode_of_override _ dist v_ego v_lead h, hb, if_neg hkeep]

/-- Claim C12: for every controller state and every argument tuple, if a `Step`
call leaves the controller in `Override`, then an immediately following `Step`
call with identical arguments also leaves it in `Override` and returns `a_min`
again: both calls return `a_min`, and the second leaves the controller as the
first left it. -/
theorem ACC.Step_override_repeat (s : ACC) (dist v_ego v_lead v_set dt : ℚ)
    (h : (s.Step dist v_ego v_lead v_set dt).2.mode = ACCMode.Override) :
    ((s.Step dist v_ego v_lead v_set dt).2.Step dist v_ego v_lead v_set dt).2.mode =
      ACCMode.Override ∧
    ((s.Step dist v_ego v_lead v_set dt).2.Step dist v_ego v_lead v_set dt).1 = s.a_min ∧
    (s.Step dist v_ego v_lead v_set dt).1 = s.a_min ∧
    ((s.Step dist v_ego v_lead v_set dt).2.Step dist v_ego v_lead v_set dt).2 =
      (s.Step dist v_ego v_lead v_set dt).2 := by
  rw [ACC.Step_mode] at h
  have h2 : ((s.UpdateMode dist v_ego v_lead).UpdateMode dist v_ego v_lead).mode =
      ACCMode.Override := by
    rw [ACC.UpdateMode_override_stable s dist v_ego v_lead h]
    exact h
  rw [ACC.Step_of_resolved_override s dist v_ego v_lead v_set dt h,
    ACC.Step_of_resolved_override _ dist v_ego v_lead v_set dt h2,
    ACC.UpdateMode_override_stable s dist v_ego v_lead h]
  exact ⟨h, (ACC.UpdateMode_limits s dist v_ego v_lead).1,
    (ACC.UpdateMode_limits s dist v_ego v_lead).1, rfl⟩

/-- The tick that takes `followingAtRest` into `Override` (gap 58, ego speed 30,
stopped lead), issued twice: the second call also ends in `Override` and returns
`a_min`. -/
theorem ACC.Step_override_repeat_witness :
    (ACC.followingAtRest.Step 58 30 0 27 (1 / 20)).2.mode = ACCMode.Override ∧
    ((ACC.followingAtRest.Step 58 30 0 27 (1 / 20)).2.Step 58 30 0 27 (1 / 20)).2.mode =
      ACCMode.Override ∧
    ((ACC.followingAtRest.Step 58 30 0 27 (1 / 20)).2.Step 58 30 0 27 (1 / 20)).1 =
      ACC.followingAtRest.a_min :=
  have h : (ACC.followingAtRest.Step 58 30 0 27 (1 / 20)).2.mode = ACCMode.Override := by
    rw [ACC.Step_mode, ACC.UpdateMode_of_headway _ 58 30 0 ACC.followingAtRest_mode,
      if_pos ACC.followingAtRest_gap_unsafe]
  ⟨h, (ACC.Step_override_repeat ACC.followingAtRest 58 30 0 27 (1 / 20) h).1,
    (ACC.Step_override_repeat ACC.followingAtRest 58 30 0 27 (1 / 20) h).2.1⟩

/-! ## Desired spacing at negative speeds -/

/-- Claim C15, as stated, fails: `Step` and `DesiredSpacing` take any ego speed,
and with the default configuration the desired spacing at ego speed `-10` is
`5 + 1.2 · (-10) = -7`, which is negative. -/
theorem ACC.DesiredSpacing_negative_counterexample :
    ACC.defaults.DesiredSpacing (-10) = -7 ∧ ¬ (0 ≤ ACC.defaults.DesiredSpacing (-10)) := by
  have h : ACC.defaults.DesiredSpacing (-10) = -7 := by
    norm_num [ACC.DesiredSpacing, ACC.defaults, ACC.init]
  refine ⟨h, ?_⟩
  rw [h]
  norm_num

/-- Claim C15, amended: with the default configuration (`d0 = 5.0`,
`headway = 1.2`), `DesiredSpacing(v_ego) ≥ 0` holds exactly for the ego speeds
`v_ego ≥ -25/6`, so for every non-negative ego speed. -/
theorem ACC.DesiredSpacing_default_nonneg (v_ego : ℚ) :
    (0 ≤ ACC.defaults.DesiredSpacing v_ego ↔ -25 / 6 ≤ v_ego) ∧
      (0 ≤ v_ego → 0 ≤ ACC.defaults.DesiredSpacing v_ego) := by
  have h : ACC.defaults.DesiredSpacing v_ego = 5 + 12 / 10 * v_ego := by
    simp [ACC.DesiredSpacing, ACC.defaults, ACC.init]
  rw [h]
  refine ⟨⟨fun h0 => by linarith, fun h0 => by linarith⟩, fun h0 => by linarith⟩

/-! ## Hysteresis: repeated mode updates with fixed inputs -/

/-- A mode update of `s` put in mode `m` is `s` put in mode `nextMode … m`. -/
theorem ACC.UpdateMode_with_mode (s : ACC) (dist v_ego v_lead : ℚ) (m : ACCMode) :
    ({ s with mode := m } : ACC).UpdateMode dist v_ego v_lead =
      { s with mode := s.nextMode dist v_ego v_lead m } := by
  rw [ACC.UpdateMode_eq_with_mode]
  rfl

/-- The transition out of `Cruise`. -/
theorem ACC.nextMode_cruise (s : ACC) (dist v_ego v_lead : ℚ) :
    s.nextMode dist v_ego v_lead ACCMode.Cruise =
      if dist < s.DesiredSpacing v_ego + 5 then ACCMode.Headway else ACCMode.Cruise := by
  unfold ACC.nextMode
  rw [ACC.UpdateMode_of_cruise _ dist v_ego v_lead rfl]
  show (if dist < s.DesiredSpacing v_ego + 5 then ({ s with mode := ACCMode.Headway } : ACC)
    else { s with mode := ACCMode.Cruise }).mode = _
  split_ifs <;> rfl

/-- The transition out of `Headway`. -/
theorem ACC.nextMode_headway (s : ACC) (dist v_ego v_lead : ℚ) :
    s.nextMode dist v_ego v_lead ACCMode.Headway =
      if dist < s.BrakingDistance v_ego v_lead then ACCMode.Override
      else if dist > s.DesiredSpacing v_ego + 15 then ACCMode.Cruise
      else ACCMode.Headway := by
  unfold ACC.nextMode
  rw [ACC.UpdateMode_of_headway _ dist v_ego v_lead rfl]
  show (if dist < s.BrakingDistance v_ego v_lead then ({ s with mode := ACCMode.Override } : ACC)
    else if dist > s.DesiredSpacing v_ego + 15 then { s with mode := ACCMode.Cruise }
    else { s with mode := ACCMode.Headway }).mode = _
  split_ifs <;> rfl

/-- The transition out of `Override`. -/
theorem ACC.nextMode_override (s : ACC) (dist v_ego v_lead : ℚ) :
    s.nextMode dist v_ego v_lead ACCMode.Override =
      if dist > s.BrakingDistance v_ego v_lead + 5 then ACCMode.Headway
      else ACCMode.Override := by
  unfold ACC.nextMode
  rw [ACC.UpdateMode_of_override _ dist v_ego v_lead rfl]
  show (if dist > s.BrakingDistance v_ego v_lead + 5 then
      ({ s with mode := ACCMode.Headway } : ACC)
    else { s with mode := ACCMode.Override }).mode = _
  split_ifs <;> rfl

/-- With fixed inputs the transition function settles after two applications. -/
theorem ACC.nextMode_settles (s : ACC) (dist v_ego v_lead : ℚ) (m : ACCMode) :
    s.nextMode dist v_ego v_lead
        (s.nextMode dist v_ego v_lead (s.nextMode dist v_ego v_lead m)) =
      s.nextMode dist v_ego v_lead (s.nextMode dist v_ego v_lead m) := by
  by_cases hA : dist < s.DesiredSpacing v_ego + 5 <;>
  by_cases hB : dist < s.BrakingDistance v_ego v_lead <;>
  by_cases hC : dist > s.DesiredSpacing v_ego + 15 <;>
  by_cases hD : dist > s.BrakingDistance v_ego v_lead + 5 <;>
  first
    | (exfalso; linarith)
    | (cases m <;>
        simp [ACC.nextMode_cruise, ACC.nextMode_headway, ACC.nextMode_override, hA, hB, hC, hD])

/-- With fixed inputs the transition function has no cycle of length two: a mode
that comes back after two applications was never left. -/
theorem ACC.nextMode_no_return (s : ACC) (dist v_ego v_lead : ℚ) (m : ACCMode)
    (h : s.nextMode dist v_ego v_lead (s.nextMode dist v_ego v_lead m) = m) :
    s.nextMode dist v_ego v_lead m = m := by
  revert h
  by_cases hA : dist < s.DesiredSpacing v_ego + 5 <;>
  by_cases hB : dist < s.BrakingDistance v_ego v_lead <;>
  by_cases hC : dist > s.DesiredSpacing v_ego + 15 <;>
  by_cases hD : dist > s.BrakingDistance v_ego v_lead + 5 <;>
  first
    | (exfalso; linarith)
    | (cases m <;>
        simp [ACC.nextMode_cruise, ACC.nextMode_headway, ACC.nextMode_override, hA, hB, hC, hD])

/-- Every iterate of the mode update is the starting controller with some mode,
and its successor's mode is given by the transition function. -/
theorem ACC.UpdateModeN_shape (s : ACC) (dist v_ego v_lead : ℚ) (n : Nat) :
    s.UpdateModeN dist v_ego v_lead n =
        { s with mode := (s.UpdateModeN dist v_ego v_lead n).mode } ∧
      (s.UpdateModeN dist v_ego v_lead (n + 1)).mode =
        s.nextMode dist v_ego v_lead (s.UpdateModeN dist v_ego v_lead n).mode := by
  have hstep : ∀ t : ACC, t = { s with mode := t.mode } →
      t.UpdateMode dist v_ego v_lead =
        { s with mode := s.nextMode dist v_ego v_lead t.mode } := by
    intro t ht
    have := ACC.UpdateMode_with_mode s dist v_ego v_lead t.mode
    rw [← ht] at this
    exact this
  induction n with
  | zero =>
    have h0 : s.UpdateModeN dist v_ego v_lead 0 = s := rfl
    have h1 : s.UpdateModeN dist v_ego v_lead (0 + 1) = s.UpdateMode dist v_ego v_lead := rfl
    rw [h1, h0, hstep s rfl]
    exact ⟨rfl, rfl⟩
  | succ k ih =>
    have h1 : s.UpdateModeN dist v_ego v_lead (k + 1) =
        (s.UpdateModeN dist v_ego v_lead k).UpdateMode dist v_ego v_lead := rfl
    have h2 : s.UpdateModeN dist v_ego v_lead (k + 1 + 1) =
        (s.UpdateModeN dist v_ego v_lead (k + 1)).UpdateMode dist v_ego v_lead := rfl
    have hk : s.UpdateModeN dist v_ego v_lead (k + 1) =
        { s with mode := (s.UpdateModeN dist v_ego v_lead (k + 1)).mode } := by
      rw [h1, hstep _ ih.1]
    refine ⟨hk, ?_⟩
    rw [h2, hstep _ hk]

/-- From the second iterate on, the mode no longer changes. -/
theorem ACC.UpdateModeN_settled (s : ACC) (dist v_ego v_lead : ℚ) (i n : Nat) :
    (s.UpdateModeN dist v_ego v_lead (i + 2 + n)).mode =
      (s.UpdateModeN dist v_ego v_lead (i + 2)).mode := by
  induction n with
  | zero => rfl
  | succ k ih =>
    have e : i + 2 + (k + 1) = (i + k) + 2 + 1 := by omega
    have e2 : i + 2 + k = (i + k) + 2 := by omega
    rw [e, (ACC.UpdateModeN_shape s dist v_ego v_lead (i + k + 2)).2,
      (ACC.UpdateModeN_shape s dist v_ego v_lead (i + k + 1)).2,
      (ACC.UpdateModeN_shape s dist v_ego v_lead (i + k)).2,
      ACC.nextMode_settles,
      ← (ACC.UpdateModeN_shape s dist v_ego v_lead (i + k)).2,
      ← (ACC.UpdateModeN_shape s dist v_ego v_lead (i + k + 1)).2, ← e2]
    exact ih

/-- Claim C17: for every starting mode and every fixed triple `(distance, v_ego,
v_lead)`, repeatedly applying the mode update with those same inputs never
chatters: the mode reached after two updates is a fixed point (every later
update leaves it unchanged), and no mode that has been left is ever re-entered
(a mode seen after `i` and again after `k` updates is the mode after every
number of updates in between). -/
theorem ACC.UpdateMode_no_chatter (s : ACC) (dist v_ego v_lead : ℚ) :
    (∀ n : Nat, 2 ≤ n →
      (s.UpdateModeN dist v_ego v_lead n).mode = (s.UpdateModeN dist v_ego v_lead 2).mode) ∧
    (∀ i j k : Nat, i ≤ j → j ≤ k →
      (s.UpdateModeN dist v_ego v_lead i).mode = (s.UpdateModeN dist v_ego v_lead k).mode →
      (s.UpdateModeN dist v_ego v_lead j).mode = (s.UpdateModeN dist v_ego v_lead i).mode) := by
  have late : ∀ i n : Nat, i + 2 ≤ n →
      (s.UpdateModeN dist v_ego v_lead n).mode =
        (s.UpdateModeN dist v_ego v_lead (i + 2)).mode := by
    intro i n hn
    have e : n = i + 2 + (n - (i + 2)) := by omega
    rw [e]
    exact ACC.UpdateModeN_settled s dist v_ego v_lead i (n - (i + 2))
  constructor
  · intro n hn
    exact late 0 n (by omega)
  · intro i j k hij hjk h
    rcases Nat.lt_or_ge j (i + 2) with hj | hj
    · rcases Nat.eq_or_lt_of_le hij with hji | hji
      · rw [hji]
      · have hj1 : j = i + 1 := by omega
        subst hj1
        rcases Nat.lt_or_ge k (i + 2) with hk | hk
        · have hk1 : k = i + 1 := by omega
          rw [hk1] at h
          exact h.symm
        · rw [late i k hk, (ACC.UpdateModeN_shape s dist v_ego v_lead (i + 1)).2,
            (ACC.UpdateModeN_shape s dist v_ego v_lead i).2] at h
          rw [(ACC.UpdateModeN_shape s dist v_ego v_lead i).2]
          exact ACC.nextMode_no_return s dist v_ego v_lead _ h.symm
    · rw [late i j hj, ← late i k (by omega)]
      exact h.symm

/-! ## The control laws, tick by tick -/

/-- A tick that resolves to `Cruise`, written out: the returned command and the
controller after the call, in terms of the controller before it. -/
theorem ACC.Step_cruise_eq (s : ACC) (dist v_ego v_lead v_set dt : ℚ)
    (h : (s.UpdateMode dist v_ego v_lead).mode = ACCMode.Cruise) :
    s.Step dist v_ego v_lead v_set dt =
      (clamp (s.Kp_c * (v_set - v_ego) + s.Ki_c * (s.integ_c + (v_set - v_ego) * dt) +
          s.Kd_c * ((v_set - v_ego - s.prev_err_c) / dt)) s.a_min s.a_max,
        { s with
          mode := ACCMode.Cruise,
          integ_c := s.integ_c + (v_set - v_ego) * dt,
          prev_err_c := v_set - v_ego }) := by
  rw [ACC.Step_of_resolved_cruise s dist v_ego v_lead v_set dt h,
    ACC.UpdateMode_eq_with_mode, h]
  rfl

/-- A tick that resolves to `Headway`, written out; the inner loop's error is
kept as the source computes it, `(v_ego + dv) - v_ego`. -/
theorem ACC.Step_headway_eq (s : ACC) (dist v_ego v_lead v_set dt : ℚ)
    (h : (s.UpdateMode dist v_ego v_lead).mode = ACCMode.Headway) :
    s.Step dist v_ego v_lead v_set dt =
      (clamp
          (s.Kp_v * (v_ego + (s.Kp_h * (dist - s.DesiredSpacing v_ego) +
              s.Ki_h * (s.integ_h + (dist - s.DesiredSpacing v_ego) * dt) +
              s.Kd_h * ((dist - s.DesiredSpacing v_ego - s.prev_err_h) / dt)) - v_ego) +
            s.Ki_v * (s.integ_v + (v_ego + (s.Kp_h * (dist - s.DesiredSpacing v_ego) +
              s.Ki_h * (s.integ_h + (dist - s.DesiredSpacing v_ego) * dt) +
              s.Kd_h * ((dist - s.DesiredSpacing v_ego - s.prev_err_h) / dt)) - v_ego) * dt))
          s.a_min s.a_max,
        { s with
          mode := ACCMode.Headway,
          integ_h := s.integ_h + (dist - s.DesiredSpacing v_ego) * dt,
          prev_err_h := dist - s.DesiredSpacing v_ego,
          integ_v := s.integ_v + (v_ego + (s.Kp_h * (dist - s.DesiredSpacing v_ego) +
              s.Ki_h * (s.integ_h + (dist - s.DesiredSpacing v_ego) * dt) +
              s.Kd_h * ((dist - s.DesiredSpacing v_ego - s.prev_err_h) / dt)) - v_ego) * dt }) := by
  rw [ACC.Step_of_resolved_headway s dist v_ego v_lead v_set dt h,
    ACC.UpdateMode_eq_with_mode, h]
  rfl

/-- Claim C19: for every `Step` call with `dt > 0` whose resolved mode is
`Cruise`, with `e = v_set − v_ego`, the returned command equals
`clamp(Kp_c·e + Ki_c·(integ_c + e·dt) + Kd_c·(e − prev_err_c)/dt, a_min, a_max)`,
and afterwards `integ_c` is the old `integ_c + e·dt` and `prev_err_c = e`. -/
theorem ACC.Step_cruise_law (s : ACC) (dist v_ego v_lead v_set dt e : ℚ)
    (_hdt : 0 < dt) (h : (s.UpdateMode dist v_ego v_lead).mode = ACCMode.Cruise)
    (he : e = v_set - v_ego) :
    (s.Step dist v_ego v_lead v_set dt).1 =
      clamp (s.Kp_c * e + s.Ki_c * (s.integ_c + e * dt) + s.Kd_c * (e - s.prev_err_c) / dt)
        s.a_min s.a_max ∧
    (s.Step dist v_ego v_lead v_set dt).2.integ_c = s.integ_c + e * dt ∧
    (s.Step dist v_ego v_lead v_set dt).2.prev_err_c = e := by
  rw [ACC.Step_cruise_eq s dist v_ego v_lead v_set dt h, he, mul_div_assoc]
  exact ⟨rfl, rfl, rfl⟩

/-- The default controller resolves a tick with gap 50 and ego speed 20 to
`Cruise`: the desired spacing plus 5 is 34. -/
theorem ACC.defaults_resolves_cruise :
    (ACC.defaults.UpdateMode 50 20 27).mode = ACCMode.Cruise := by
  rw [ACC.UpdateMode_of_cruise _ 50 20 27 rfl, if_neg]
  · rfl
  · norm_num [ACC.DesiredSpacing, ACC.defaults, ACC.init]

/-- A cruise tick of the default controller with gap 50, ego speed 20, set point
27 and `dt = 0.05`: the error is 7, and the integrator and the stored error move
as the law says. -/
theorem ACC.Step_cruise_law_witness :
    (0 : ℚ) < 1 / 20 ∧ (ACC.defaults.UpdateMode 50 20 27).mode = ACCMode.Cruise ∧
    (7 : ℚ) = 27 - 20 ∧
    (ACC.defaults.Step 50 20 27 27 (1 / 20)).2.integ_c =
      ACC.defaults.integ_c + 7 * (1 / 20) ∧
    (ACC.defaults.Step 50 20 27 27 (1 / 20)).2.prev_err_c = 7 :=
  ⟨by norm_num, ACC.defaults_resolves_cruise, by norm_num,
    (ACC.Step_cruise_law ACC.defaults 50 20 27 27 (1 / 20) 7 (by norm_num)
      ACC.defaults_resolves_cruise (by norm_num)).2⟩

/-! ## What a tick leaves untouched -/

/-- A tick leaves the sixteen gains and parameters as they were. -/
theorem ACC.Step_params (s : ACC) (dist v_ego v_lead v_set dt : ℚ) :
    (s.Step dist v_ego v_lead v_set dt).2.params = s.params := by
  cases h : (s.UpdateMode dist v_ego v_lead).mode
  · rw [ACC.Step_cruise_eq s dist v_ego v_lead v_set dt h]
    rfl
  · rw [ACC.Step_headway_eq s dist v_ego v_lead v_set dt h]
    rfl
  · rw [ACC.Step_of_resolved_override s dist v_ego v_lead v_set dt h,
      ACC.UpdateMode_eq_with_mode]
    rfl

/-- A sequence of ticks leaves the sixteen gains and parameters as they were. -/
theorem ACC.StepSeq_params (calls : List (ℚ × ℚ × ℚ × ℚ × ℚ)) (s : ACC) :
    (s.StepSeq calls).params = s.params := by
  induction calls generalizing s with
  | nil => rfl
  | cons c rest ih =>
    obtain ⟨dist, v_ego, v_lead, v_set, dt⟩ := c
    show ((s.Step dist v_ego v_lead v_set dt).2.StepSeq rest).params = s.params
    rw [ih, ACC.Step_params]

/-- Controllers with the same gains and parameters have the same available
deceleration, braking distance and desired spacing. -/
theorem ACC.queries_of_params (s t : ACC) (h : t.params = s.params) (a b : ℚ) :
    t.AvailableDecel = s.AvailableDecel ∧
    t.BrakingDistance a b = s.BrakingDistance a b ∧
    t.DesiredSpacing a = s.DesiredSpacing a := by
  simp only [ACC.params, List.cons.injEq, and_true] at h
  obtain ⟨-, -, -, -, -, -, -, -, hh, hd0, hmu, hsf, hds, -, -, -⟩ := h
  simp only [ACC.BrakingDistance, ACC.AvailableDecel, ACC.DesiredSpacing, hh, hd0, hmu, hsf,
    hds, and_self]

/-- Claim C20: every `Step` call leaves all gains and parameters (`Kp_c … Ki_v`,
`headway`, `d0`, `mu`, `safety_factor`, `d_safety`, `a_max`, `a_min`, `margin`)
unchanged, so `AvailableDecel`, `BrakingDistance` and `DesiredSpacing` return the
same values before and after any sequence of `Step` calls; and of the loop state,
a tick that resolves to `Cruise` leaves `integ_h`, `prev_err_h`, `integ_v` and
`prev_err_v` as they were, a tick that resolves to `Headway` leaves `integ_c`,
`prev_err_c` and `prev_err_v` as they were. -/
theorem ACC.Step_frame (s : ACC) (dist v_ego v_lead v_set dt : ℚ)
    (calls : List (ℚ × ℚ × ℚ × ℚ × ℚ)) (a b : ℚ) :
    (s.Step dist v_ego v_lead v_set dt).2.params = s.params ∧
    (s.StepSeq calls).params = s.params ∧
    (s.StepSeq calls).AvailableDecel = s.AvailableDecel ∧
    (s.StepSeq calls).BrakingDistance a b = s.BrakingDistance a b ∧
    (s.StepSeq calls).DesiredSpacing a = s.DesiredSpacing a ∧
    ((s.UpdateMode dist v_ego v_lead).mode = ACCMode.Cruise →
      (s.Step dist v_ego v_lead v_set dt).2.integ_h = s.integ_h ∧
      (s.Step dist v_ego v_lead v_set dt).2.prev_err_h = s.prev_err_h ∧
      (s.Step dist v_ego v_lead v_set dt).2.integ_v = s.integ_v ∧
      (s.Step dist v_ego v_lead v_set dt).2.prev_err_v = s.prev_err_v) ∧
    ((s.UpdateMode dist v_ego v_lead).mode = ACCMode.Headway →
      (s.Step dist v_ego v_lead v_set dt).2.integ_c = s.integ_c ∧
      (s.Step dist v_ego v_lead v_set dt).2.prev_err_c = s.prev_err_c ∧
      (s.Step dist v_ego v_lead v_set dt).2.prev_err_v = s.prev_err_v) := by
  refine ⟨ACC.Step_params s dist v_ego v_lead v_set dt, ACC.StepSeq_params calls s,
    (ACC.queries_of_params s _ (ACC.StepSeq_params calls s) a b).1,
    (ACC.queries_of_params s _ (ACC.StepSeq_params calls s) a b).2.1,
    (ACC.queries_of_params s _ (ACC.StepSeq_params calls s) a b).2.2, ?_, ?_⟩
  · intro h
    rw [ACC.Step_cruise_eq s dist v_ego v_lead v_set dt h]
    exact ⟨rfl, rfl, rfl, rfl⟩
  · intro h
    rw [ACC.Step_headway_eq s dist v_ego v_lead v_set dt h]
    exact ⟨rfl, rfl, rfl⟩

/-! ## Binary64: the arithmetic at known values -/

/-- The embedding of the arithmetic agrees with IEEE 754 binary64 at values that
are easy to check against any implementation: `0.1` is `0x3FB999999999999A`,
`0.1 + 0.2` is `0.30000000000000004` and not `0.3`, `1 / 3` is
`0x3FD5555555555555`, twice the largest finite double overflows to `+inf`, half
the smallest subnormal is `0` and three halves of it is twice it (ties to even),
`1 / 0 = +inf`, `1 / -0 = -inf`, `0 / 0` and `inf - inf` are NaN, and
`0 + -0 = +0`. -/
theorem F64.known_values :
    F64.ofRat 1 10 = F64.fin false (7205759403792794 * 2 ^ 1018) ∧
    F64.add (F64.ofRat 1 10) (F64.ofRat 2 10) = F64.ofRat 30000000000000004 100000000000000000 ∧
    F64.add (F64.ofRat 1 10) (F64.ofRat 2 10) ≠ F64.ofRat 3 10 ∧
    F64.div (F64.ofRat 1 1) (F64.ofRat 3 1) = F64.fin false (6004799503160661 * 2 ^ 1020) ∧
    F64.ofRat (2 ^ 1024 - 2 ^ 971) 1 = F64.fin false ((2 ^ 53 - 1) * 2 ^ 2045) ∧
    F64.mul (F64.ofRat (2 ^ 1024 - 2 ^ 971) 1) (F64.ofRat 2 1) = F64.inf false ∧
    F64.ofRat 1 (2 ^ 1074) = F64.fin false 1 ∧
    F64.div (F64.fin false 1) (F64.ofRat 2 1) = F64.fin false 0 ∧
    F64.mul (F64.fin false 3) (F64.ofRat 1 2) = F64.fin false 2 ∧
    F64.div (F64.ofRat 1 1) F64.zero = F64.inf false ∧
    F64.div (F64.ofRat 1 1) (F64.neg F64.zero) = F64.inf true ∧
    F64.div F64.zero F64.zero = F64.nan ∧
    F64.sub (F64.inf false) (F64.inf false) = F64.nan ∧
    F64.add F64.zero (F64.neg F64.zero) = F64.zero := by
  decide!

/-! ## Binary64: comparisons and `std::clamp` -/

/-- The comparison `x < y` holds exactly when neither side is a NaN and `x` is
left of `y` on the number line. -/
theorem F64.lt_iff (x y : F64) :
    F64.lt x y = true ↔ x.isNaN = false ∧ y.isNaN = false ∧ x.ord < y.ord := by
  simp [F64.lt, and_assoc]

/-- The comparison `x <= y` holds exactly when neither side is a NaN and `x` is
not right of `y` on the number line. -/
theorem F64.le_iff (x y : F64) :
    F64.le x y = true ↔ x.isNaN = false ∧ y.isNaN = false ∧ x.ord ≤ y.ord := by
  simp [F64.le, and_assoc]

/-- A double is a NaN exactly when `isNaN` says so. -/
theorem F64.isNaN_eq_false_iff (x : F64) : x.isNaN = false ↔ x ≠ F64.nan := by
  cases x <;> simp [F64.isNaN]

/-- With ordered bounds, `std::clamp` returns its argument when that is a NaN,
and otherwise a value between the bounds. -/
theorem F64.clamp_nan_or_within (v lo hi : F64) (h : F64.le lo hi = true) :
    F64.clamp v lo hi = F64.nan ∨
      (F64.le lo (F64.clamp v lo hi) = true ∧ F64.le (F64.clamp v lo hi) hi = true) := by
  obtain ⟨hlo, hhi, hle⟩ := (F64.le_iff lo hi).mp h
  unfold F64.clamp
  by_cases h1 : F64.lt v lo = true
  · rw [if_pos h1]
    exact Or.inr ⟨(F64.le_iff lo lo).mpr ⟨hlo, hlo, le_refl _⟩, h⟩
  · rw [if_neg h1]
    by_cases h2 : F64.lt hi v = true
    · rw [if_pos h2]
      exact Or.inr ⟨h, (F64.le_iff hi hi).mpr ⟨hhi, hhi, le_refl _⟩⟩
    · rw [if_neg h2]
      by_cases hv : v.isNaN = false
      · right
        rw [F64.lt_iff] at h1 h2
        constructor
        · exact (F64.le_iff lo v).mpr ⟨hlo, hv, not_lt.mp (fun hc => h1 ⟨hv, hlo, hc⟩)⟩
        · exact (F64.le_iff v hi).mpr ⟨hv, hhi, not_lt.mp (fun hc => h2 ⟨hhi, hv, hc⟩)⟩
      · left
        cases v <;> simp [F64.isNaN] at hv ⊢

/-! ## Binary64: the shape of a tick -/

/-- The mode update in `Cruise`, on doubles. -/
theorem ACC64.UpdateMode_of_cruise_f64 (s : ACC64) (dist v_ego v_lead : F64)
    (hm : s.mode = ACCMode.Cruise) :
    s.UpdateMode dist v_ego v_lead =
      if F64.lt dist (F64.add (s.DesiredSpacing v_ego) (F64.ofRat 5 1)) then
        { s with mode := ACCMode.Headway }
      else s := by
  simp only [ACC64.UpdateMode, hm]

/-- The mode update in `Headway`, on doubles. -/
theorem ACC64.UpdateMode_of_headway_f64 (s : ACC64) (dist v_ego v_lead : F64)
    (hm : s.mode = ACCMode.Headway) :
    s.UpdateMode dist v_ego v_lead =
      if F64.lt dist (s.BrakingDistance v_ego v_lead) then { s with mode := ACCMode.Override }
      else if F64.lt (F64.add (s.DesiredSpacing v_ego) (F64.ofRat 15 1)) dist then
        { s with mode := ACCMode.Cruise }
      else s := by
  simp only [ACC64.UpdateMode, hm]

/-- The mode update in `Override`, on doubles. -/
theorem ACC64.UpdateMode_of_override_f64 (s : ACC64) (dist v_ego v_lead : F64)
    (hm : s.mode = ACCMode.Override) :
    s.UpdateMode dist v_ego v_lead =
      if F64.lt (F64.add (s.BrakingDistance v_ego v_lead) (F64.ofRat 5 1)) dist then
        { s with mode := ACCMode.Headway }
      else s := by
  simp only [ACC64.UpdateMode, hm]

/-- On doubles too the mode update writes the mode field only. -/
theorem ACC64.UpdateMode_eq_with_mode_f64 (s : ACC64) (dist v_ego v_lead : F64) :
    s.UpdateMode dist v_ego v_lead =
      { s with mode := (s.UpdateMode dist v_ego v_lead).mode } := by
  cases hm : s.mode
  · rw [ACC64.UpdateMode_of_cruise_f64 s dist v_ego v_lead hm]
    split_ifs
    · rfl
    · cases s; simp_all
  · rw [ACC64.UpdateMode_of_headway_f64 s dist v_ego v_lead hm]
    split_ifs
    · rfl
    · rfl
    · cases s; simp_all
  · rw [ACC64.UpdateMode_of_override_f64 s dist v_ego v_lead hm]
    split_ifs
    · rfl
    · cases s; simp_all

/-- A tick on doubles that resolves to `Override`: `a_min` is returned and only
the mode may have changed. -/
theorem ACC64.Step_override_eq (s : ACC64) (dist v_ego v_lead v_set dt : F64)
    (h : (s.UpdateMode dist v_ego v_lead).mode = ACCMode.Override) :
    s.Step dist v_ego v_lead v_set dt = (s.a_min, { s with mode := ACCMode.Override }) := by
  have e : s.Step dist v_ego v_lead v_set dt =
      ((s.UpdateMode dist v_ego v_lead).a_min, s.UpdateMode dist v_ego v_lead) := by
    simp only [ACC64.Step, h, if_true]
  rw [e, ACC64.UpdateMode_eq_with_mode_f64, h]

/-- A tick on doubles that resolves to `Cruise`, written out operation by
operation in the order of `CruisePID`. -/
theorem ACC64.Step_cruise_eq_f64 (s : ACC64) (dist v_ego v_lead v_set dt : F64)
    (h : (s.UpdateMode dist v_ego v_lead).mode = ACCMode.Cruise) :
    s.Step dist v_ego v_lead v_set dt =
      (F64.clamp
          (F64.add
            (F64.add (F64.mul s.Kp_c (F64.sub v_set v_ego))
              (F64.mul s.Ki_c (F64.add s.integ_c (F64.mul (F64.sub v_set v_ego) dt))))
            (F64.mul s.Kd_c (F64.div (F64.sub (F64.sub v_set v_ego) s.prev_err_c) dt)))
          s.a_min s.a_max,
        { s with
          mode := ACCMode.Cruise,
          integ_c := F64.add s.integ_c (F64.mul (F64.sub v_set v_ego) dt),
          prev_err_c := F64.sub v_set v_ego }) := by
  have e : s.Step dist v_ego v_lead v_set dt =
      (s.UpdateMode dist v_ego v_lead).CruisePID v_set v_ego dt := by
    simp [ACC64.Step, h]
  rw [e, ACC64.UpdateMode_eq_with_mode_f64, h]
  rfl

/-- A tick on doubles that resolves to `Headway`, written out operation by
operation: `dv` is what `HeadwayOuter` returns, the inner loop's error is
`(v_ego + dv) - v_ego`. -/
theorem ACC64.Step_headway_eq_f64 (s : ACC64) (dist v_ego v_lead v_set dt : F64)
    (h : (s.UpdateMode dist v_ego v_lead).mode = ACCMode.Headway) :
    s.Step dist v_ego v_lead v_set dt =
      (F64.clamp
          (F64.add
            (F64.mul s.Kp_v (F64.sub (F64.add v_ego (s.HeadwayOuter dist v_ego dt).1) v_ego))
            (F64.mul s.Ki_v
              (F64.add s.integ_v
                (F64.mul (F64.sub (F64.add v_ego (s.HeadwayOuter dist v_ego dt).1) v_ego) dt))))
          s.a_min s.a_max,
        { s with
          mode := ACCMode.Headway,
          integ_h := F64.add s.integ_h (F64.mul (F64.sub dist (s.DesiredSpacing v_ego)) dt),
          prev_err_h := F64.sub dist (s.DesiredSpacing v_ego),
          integ_v := F64.add s.integ_v
            (F64.mul (F64.sub (F64.add v_ego (s.HeadwayOuter dist v_ego dt).1) v_ego) dt) }) := by
  have e : s.Step dist v_ego v_lead v_set dt =
      (((s.UpdateMode dist v_ego v_lead).HeadwayOuter dist v_ego dt).2).SpeedInner
        (F64.add v_ego ((s.UpdateMode dist v_ego v_lead).HeadwayOuter dist v_ego dt).1)
        v_ego dt := by
    simp [ACC64.Step, h]
  rw [e, ACC64.UpdateMode_eq_with_mode_f64, h]
  rfl

/-- The value returned by any tick on doubles is a NaN or lies between the
limits, when these are ordered. -/
theorem ACC64.Step_nan_or_bounded (s : ACC64) (dist v_ego v_lead v_set dt : F64)
    (hlim : F64.le s.a_min s.a_max = true) :
    (s.Step dist v_ego v_lead v_set dt).1 = F64.nan ∨
      (F64.le s.a_min (s.Step dist v_ego v_lead v_set dt).1 = true ∧
        F64.le (s.Step dist v_ego v_lead v_set dt).1 s.a_max = true) := by
  cases h : (s.UpdateMode dist v_ego v_lead).mode
  · rw [ACC64.Step_cruise_eq_f64 s dist v_ego v_lead v_set dt h]
    exact F64.clamp_nan_or_within _ _ _ hlim
  · rw [ACC64.Step_headway_eq_f64 s dist v_ego v_lead v_set dt h]
    exact F64.clamp_nan_or_within _ _ _ hlim
  · rw [ACC64.Step_override_eq s dist v_ego v_lead v_set dt h]
    obtain ⟨hlo, -, -⟩ := (F64.le_iff s.a_min s.a_max).mp hlim
    exact Or.inr ⟨(F64.le_iff _ _).mpr ⟨hlo, hlo, le_refl _⟩, hlim⟩

/-! ## Binary64: the acceleration command and its limits -/

/-- Claim C1, as stated, fails on doubles: the controller `saturated` has the
default limits `-8 ≤ 2`, and a second tick with the same inputs (`dt = 0.5 > 0`)
computes the derivative `(inf - inf) / 0.5`, a NaN, so the unclamped command is a
NaN, `std::clamp` returns it, and the returned value is not in `[a_min, a_max]`. -/
theorem ACC64.Step_nan_counterexample :
    F64.le ACC64.saturated.a_min ACC64.saturated.a_max = true ∧
    F64.lt F64.zero (F64.ofRat 1 2) = true ∧
    (ACC64.saturated.Step (F64.ofRat 50 1) (F64.ofRat (-2 ^ 1023) 1) F64.zero
      (F64.ofRat (2 ^ 1023) 1) (F64.ofRat 1 2)).1 = F64.nan ∧
    F64.le ACC64.saturated.a_min
      (ACC64.saturated.Step (F64.ofRat 50 1) (F64.ofRat (-2 ^ 1023) 1) F64.zero
        (F64.ofRat (2 ^ 1023) 1) (F64.ofRat 1 2)).1 = false := by
  decide!

/-- Claim C1, amended: for every controller state with `a_min ≤ a_max` and every
input with `dt > 0`, the value returned by `Step` is a NaN or lies in
`[a_min, a_max]`, whichever mode the tick resolves to. -/
theorem ACC64.Step_nan_or_within_limits (s : ACC64) (dist v_ego v_lead v_set dt : F64)
    (hlim : F64.le s.a_min s.a_max = true) (_hdt : F64.lt F64.zero dt = true) :
    (s.Step dist v_ego v_lead v_set dt).1 = F64.nan ∨
      (F64.le s.a_min (s.Step dist v_ego v_lead v_set dt).1 = true ∧
        F64.le (s.Step dist v_ego v_lead v_set dt).1 s.a_max = true) := by
  cases h : (s.UpdateMode dist v_ego v_lead).mode
  · rw [ACC64.Step_cruise_eq_f64 s dist v_ego v_lead v_set dt h]
    exact F64.clamp_nan_or_within _ _ _ hlim
  · rw [ACC64.Step_headway_eq_f64 s dist v_ego v_lead v_set dt h]
    exact F64.clamp_nan_or_within _ _ _ hlim
  · rw [ACC64.Step_override_eq s dist v_ego v_lead v_set dt h]
    obtain ⟨hlo, -, -⟩ := (F64.le_iff s.a_min s.a_max).mp hlim
    exact Or.inr ⟨(F64.le_iff _ _).mpr ⟨hlo, hlo, le_refl _⟩, hlim⟩

/-- The default controller on doubles, one tick with gap 50, ego speed 20, set
point 27 and `dt = 0.05`: the command is not a NaN, so it is within `[-8, 2]`. -/
theorem ACC64.Step_nan_or_within_limits_witness :
    F64.le ACC64.defaults.a_min ACC64.defaults.a_max = true ∧
    F64.lt F64.zero (F64.ofRat 5 100) = true ∧
    (ACC64.defaults.Step (F64.ofRat 50 1) (F64.ofRat 20 1) (F64.ofRat 27 1) (F64.ofRat 27 1)
      (F64.ofRat 5 100)).1 ≠ F64.nan ∧
    ((ACC64.defaults.Step (F64.ofRat 50 1) (F64.ofRat 20 1) (F64.ofRat 27 1) (F64.ofRat 27 1)
        (F64.ofRat 5 100)).1 = F64.nan ∨
      (F64.le ACC64.defaults.a_min
          (ACC64.defaults.Step (F64.ofRat 50 1) (F64.ofRat 20 1) (F64.ofRat 27 1)
            (F64.ofRat 27 1) (F64.ofRat 5 100)).1 = true ∧
        F64.le
          (ACC64.defaults.Step (F64.ofRat 50 1) (F64.ofRat 20 1) (F64.ofRat 27 1)
            (F64.ofRat 27 1) (F64.ofRat 5 100)).1 ACC64.defaults.a_max = true)) :=
  ⟨by decide!, by decide!, by decide!,
    ACC64.Step_nan_or_within_limits ACC64.defaults (F64.ofRat 50 1) (F64.ofRat 20 1)
      (F64.ofRat 27 1) (F64.ofRat 27 1) (F64.ofRat 5 100) (by decide!) (by decide!)⟩

/-! ## Binary64: signs -/

/-- Rounding keeps the sign it is given. -/
theorem F64.signBit_round (neg : Bool) (a d : Nat) : (F64.round neg a d).signBit = neg := by
  unfold F64.round
  split_ifs <;> rfl

/-- A product of two doubles with clear sign bits has a clear sign bit. -/
theorem F64.signBit_mul (x y : F64) (hx : x.signBit = false) (hy : y.signBit = false) :
    (F64.mul x y).signBit = false := by
  cases x with
  | nan => cases y <;> rfl
  | inf s =>
    simp only [F64.signBit] at hx
    subst hx
    cases y with
    | nan => rfl
    | inf t =>
      simp only [F64.signBit] at hy
      subst hy
      rfl
    | fin t n =>
      simp only [F64.signBit] at hy
      subst hy
      simp only [F64.mul]
      split_ifs <;> rfl
  | fin s m =>
    simp only [F64.signBit] at hx
    subst hx
    cases y with
    | nan => rfl
    | inf t =>
      simp only [F64.signBit] at hy
      subst hy
      simp only [F64.mul]
      split_ifs <;> rfl
    | fin t n =>
      simp only [F64.signBit] at hy
      subst hy
      exact F64.signBit_round _ _ _

/-- A square has a clear sign bit. -/
theorem F64.signBit_mul_self (x : F64) : (F64.mul x x).signBit = false := by
  cases x with
  | nan => rfl
  | inf s => cases s <;> rfl
  | fin s m =>
    cases s
    · exact F64.signBit_round _ _ _
    · exact F64.signBit_round _ _ _

/-- A quotient of two doubles with clear sign bits has a clear sign bit. -/
theorem F64.signBit_div (x y : F64) (hx : x.signBit = false) (hy : y.signBit = false) :
    (F64.div x y).signBit = false := by
  cases x with
  | nan => cases y <;> rfl
  | inf s =>
    simp only [F64.signBit] at hx
    subst hx
    cases y with
    | nan => rfl
    | inf t => rfl
    | fin t n =>
      simp only [F64.signBit] at hy
      subst hy
      rfl
  | fin s m =>
    simp only [F64.signBit] at hx
    subst hx
    cases y with
    | nan => rfl
    | inf t =>
      simp only [F64.signBit] at hy
      subst hy
      rfl
    | fin t n =>
      simp only [F64.signBit] at hy
      subst hy
      simp only [F64.div]
      split_ifs
      · rfl
      · rfl
      · exact F64.signBit_round _ _ _

/-- A double above zero has a clear sign bit. -/
theorem F64.signBit_of_pos (x : F64) (h : F64.lt F64.zero x = true) : x.signBit = false := by
  obtain ⟨-, -, hlt⟩ := (F64.lt_iff _ _).mp h
  cases x with
  | fin s m =>
    cases s
    · rfl
    · simp only [F64.ord, F64.zero, if_true] at hlt
      simp at hlt
      omega
  | inf s =>
    cases s
    · rfl
    · simp only [F64.ord, F64.zero, if_true] at hlt
      simp at hlt
      omega
  | nan => rfl

/-- A double with a clear sign bit that is not a NaN is at or above zero. -/
theorem F64.zero_le_of_signBit (x : F64) (h : x.signBit = false) (hn : x ≠ F64.nan) :
    F64.le F64.zero x = true := by
  rw [F64.le_iff]
  cases x with
  | fin s m =>
    simp only [F64.signBit] at h
    subst h
    simp [F64.isNaN, F64.zero, F64.ord]
  | inf s =>
    simp only [F64.signBit] at h
    subst h
    simp [F64.isNaN, F64.zero, F64.ord]
  | nan => exact absurd rfl hn

/-- Adding a double at or above zero (which may be `-0.0`) to one with a clear
sign bit gives a double with a clear sign bit. -/
theorem F64.signBit_add (x d : F64) (hx : x.signBit = false)
    (hd : F64.le F64.zero d = true) : (F64.add x d).signBit = false := by
  obtain ⟨-, -, hle⟩ := (F64.le_iff _ _).mp hd
  have hpos : 0 < F64.overflowMag := by
    unfold F64.overflowMag
    positivity
  cases x with
  | nan => cases d <;> rfl
  | inf s =>
    simp only [F64.signBit] at hx
    subst hx
    cases d with
    | nan => rfl
    | fin t n => rfl
    | inf t =>
      cases t
      · rfl
      · simp only [F64.ord, F64.zero, if_true] at hle
        simp at hle
        omega
  | fin s m =>
    simp only [F64.signBit] at hx
    subst hx
    cases d with
    | nan => rfl
    | inf t =>
      cases t
      · rfl
      · simp only [F64.ord, F64.zero, if_true] at hle
        simp at hle
        omega
    | fin t n =>
      cases t
      · simp only [F64.add, if_true]
        exact F64.signBit_round _ _ _
      · simp only [F64.ord, F64.zero, if_true] at hle
        simp at hle
        subst hle
        simp only [F64.add, Bool.false_eq_true, if_false]
        split_ifs with h1 h2
        · exact F64.signBit_round _ _ _
        · exact absurd h2 (Nat.not_lt_zero m)
        · rfl

/-! ## Binary64: braking distance -/

/-- Claim C14, as stated, fails on doubles: with `mu = 2^1023 > 0`, the default
`safety_factor = 0.9 > 0` and `d_safety = 5 ≥ 0`, the product `mu * 9.81`
overflows to `+inf`; for `v_ego = 2^600` behind a stopped lead the square
`dv * dv` overflows too, the quotient is `inf / inf`, a NaN, and `NaN ≥ 0` is
false. -/
theorem ACC64.BrakingDistance_nan_counterexample :
    F64.lt F64.zero ACC64.hugeFriction.mu = true ∧
    F64.lt F64.zero ACC64.hugeFriction.safety_factor = true ∧
    F64.le F64.zero ACC64.hugeFriction.d_safety = true ∧
    ACC64.hugeFriction.BrakingDistance (F64.ofRat (2 ^ 600) 1) F64.zero = F64.nan ∧
    F64.le F64.zero (ACC64.hugeFriction.BrakingDistance (F64.ofRat (2 ^ 600) 1) F64.zero) =
      false := by
  decide!

/-- Claim C14, amended: for every configuration with `mu > 0`,
`safety_factor > 0` and `d_safety ≥ 0`, and for all speeds `v_ego` and `v_lead`,
`BrakingDistance(v_ego, v_lead)` is a NaN or is `≥ 0`; it is never negative. -/
theorem ACC64.BrakingDistance_nan_or_nonneg (s : ACC64) (v_ego v_lead : F64)
    (hmu : F64.lt F64.zero s.mu = true) (hsf : F64.lt F64.zero s.safety_factor = true)
    (hds : F64.le F64.zero s.d_safety = true) :
    s.BrakingDistance v_ego v_lead = F64.nan ∨
      F64.le F64.zero (s.BrakingDistance v_ego v_lead) = true := by
  unfold ACC64.BrakingDistance
  by_cases hle : F64.le (F64.sub v_ego v_lead) F64.zero = true
  · simp only [hle, if_true]
    exact Or.inr (by decide)
  · simp only [hle, if_false]
    have hg : (F64.ofRat 981 100).signBit = false := F64.signBit_round _ _ _
    have h2 : (F64.ofRat 2 1).signBit = false := F64.signBit_round _ _ _
    have hden : (F64.mul (F64.ofRat 2 1) s.AvailableDecel).signBit = false :=
      F64.signBit_mul _ _ h2
        (F64.signBit_mul _ _ (F64.signBit_mul _ _ (F64.signBit_of_pos _ hmu) hg)
          (F64.signBit_of_pos _ hsf))
    have hsum := F64.signBit_add _ _
      (F64.signBit_div _ _ (F64.signBit_mul_self (F64.sub v_ego v_lead)) hden) hds
    by_cases hn : F64.add
        (F64.div (F64.mul (F64.sub v_ego v_lead) (F64.sub v_ego v_lead))
          (F64.mul (F64.ofRat 2 1) s.AvailableDecel)) s.d_safety = F64.nan
    · exact Or.inl hn
    · exact Or.inr (F64.zero_le_of_signBit _ hsum hn)

/-- The default configuration on doubles, ego speed 30 behind a lead at 20: the
braking distance is the double `11.292395011389235`, not a NaN, and `≥ 0`. -/
theorem ACC64.BrakingDistance_nan_or_nonneg_witness :
    F64.lt F64.zero ACC64.defaults.mu = true ∧
    F64.lt F64.zero ACC64.defaults.safety_factor = true ∧
    F64.le F64.zero ACC64.defaults.d_safety = true ∧
    ACC64.defaults.BrakingDistance (F64.ofRat 30 1) (F64.ofRat 20 1) =
      F64.ofRat 11292395011389235 1000000000000000 ∧
    (ACC64.defaults.BrakingDistance (F64.ofRat 30 1) (F64.ofRat 20 1) = F64.nan ∨
      F64.le F64.zero (ACC64.defaults.BrakingDistance (F64.ofRat 30 1) (F64.ofRat 20 1)) =
        true) :=
  ⟨by decide!, by decide!, by decide!, by decide!,
    ACC64.BrakingDistance_nan_or_nonneg ACC64.defaults (F64.ofRat 30 1) (F64.ofRat 20 1)
      (by decide!) (by decide!) (by decide!)⟩

/-! ## Binary64: a tick in `Headway` -/

/-- Claim C18, as stated, fails on doubles. The default controller, gap 30, both
speeds 20, `dt = 0.5 > 0`: the tick resolves to `Headway`, `e = 1` and
`dv = 0.6·1 + 0.08·0.5 + 0.02·2` is the double `0.68`, but the inner loop's error
`(20 + dv) - 20` is the double `0.6799999999999997`, not `dv`; the returned
command is `0.5779999999999998` and `integ_v` becomes `0.33999999999999986`,
neither of which is what the claim's formulas give from `dv`. -/
theorem ACC64.Step_headway_rounding_counterexample :
    F64.lt F64.zero (F64.ofRat 1 2) = true ∧
    (ACC64.defaults.UpdateMode (F64.ofRat 30 1) (F64.ofRat 20 1) (F64.ofRat 20 1)).mode =
      ACCMode.Headway ∧
    F64.sub (F64.ofRat 30 1) (ACC64.defaults.DesiredSpacing (F64.ofRat 20 1)) = F64.ofRat 1 1 ∧
    F64.add
        (F64.add (F64.mul ACC64.defaults.Kp_h (F64.ofRat 1 1))
          (F64.mul ACC64.defaults.Ki_h
            (F64.add ACC64.defaults.integ_h (F64.mul (F64.ofRat 1 1) (F64.ofRat 1 2)))))
        (F64.mul ACC64.defaults.Kd_h
          (F64.div (F64.sub (F64.ofRat 1 1) ACC64.defaults.prev_err_h) (F64.ofRat 1 2))) =
      F64.ofRat 68 100 ∧
    F64.sub (F64.add (F64.ofRat 20 1) (F64.ofRat 68 100)) (F64.ofRat 20 1) =
      F64.ofRat 6799999999999997 10000000000000000 ∧
    F64.sub (F64.add (F64.ofRat 20 1) (F64.ofRat 68 100)) (F64.ofRat 20 1) ≠
      F64.ofRat 68 100 ∧
    (ACC64.defaults.Step (F64.ofRat 30 1) (F64.ofRat 20 1) (F64.ofRat 20 1) (F64.ofRat 27 1)
        (F64.ofRat 1 2)).1 = F64.ofRat 5779999999999998 10000000000000000 ∧
    (ACC64.defaults.Step (F64.ofRat 30 1) (F64.ofRat 20 1) (F64.ofRat 20 1) (F64.ofRat 27 1)
        (F64.ofRat 1 2)).1 ≠
      F64.clamp
        (F64.add (F64.mul ACC64.defaults.Kp_v (F64.ofRat 68 100))
          (F64.mul ACC64.defaults.Ki_v
            (F64.add ACC64.defaults.integ_v (F64.mul (F64.ofRat 68 100) (F64.ofRat 1 2)))))
        ACC64.defaults.a_min ACC64.defaults.a_max ∧
    (ACC64.defaults.Step (F64.ofRat 30 1) (F64.ofRat 20 1) (F64.ofRat 20 1) (F64.ofRat 27 1)
        (F64.ofRat 1 2)).2.integ_v ≠
      F64.add ACC64.defaults.integ_v (F64.mul (F64.ofRat 68 100) (F64.ofRat 1 2)) := by
  decide!

/-- Claim C18, amended: for every `Step` call with `dt > 0` whose resolved mode
is `Headway`, with `e = distance − DesiredSpacing(v_ego)` and
`dv = Kp_h·e + Ki_h·(integ_h + e·dt) + Kd_h·((e − prev_err_h)/dt)` (unclamped, the
value the outer loop returns), the inner-loop error is
`err = (v_ego + dv) − v_ego` as the two double operations round it, and the
returned command equals `clamp(Kp_v·err + Ki_v·(integ_v + err·dt), a_min, a_max)`;
afterwards `integ_h = integ_h + e·dt`, `integ_v = integ_v + err·dt` and
`prev_err_h = e`. -/
theorem ACC64.Step_headway_law_f64 (s : ACC64) (dist v_ego v_lead v_set dt e dv err : F64)
    (_hdt : F64.lt F64.zero dt = true)
    (h : (s.UpdateMode dist v_ego v_lead).mode = ACCMode.Headway)
    (he : e = F64.sub dist (s.DesiredSpacing v_ego))
    (hdv : dv = F64.add
      (F64.add (F64.mul s.Kp_h e) (F64.mul s.Ki_h (F64.add s.integ_h (F64.mul e dt))))
      (F64.mul s.Kd_h (F64.div (F64.sub e s.prev_err_h) dt)))
    (herr : err = F64.sub (F64.add v_ego dv) v_ego) :
    ((s.UpdateMode dist v_ego v_lead).HeadwayOuter dist v_ego dt).1 = dv ∧
    (s.Step dist v_ego v_lead v_set dt).1 =
      F64.clamp (F64.add (F64.mul s.Kp_v err) (F64.mul s.Ki_v (F64.add s.integ_v (F64.mul err dt))))
        s.a_min s.a_max ∧
    (s.Step dist v_ego v_lead v_set dt).2.integ_h = F64.add s.integ_h (F64.mul e dt) ∧
    (s.Step dist v_ego v_lead v_set dt).2.integ_v = F64.add s.integ_v (F64.mul err dt) ∧
    (s.Step dist v_ego v_lead v_set dt).2.prev_err_h = e := by
  have hout : (s.HeadwayOuter dist v_ego dt).1 = dv := by
    rw [hdv, he]
    rfl
  have hout2 : ((s.UpdateMode dist v_ego v_lead).HeadwayOuter dist v_ego dt).1 = dv := by
    rw [ACC64.UpdateMode_eq_with_mode_f64, ← hout]
    rfl
  rw [ACC64.Step_headway_eq_f64 s dist v_ego v_lead v_set dt h, hout, ← herr, ← he]
  exact ⟨hout2, rfl, rfl, rfl, rfl⟩

/-- The headway tick of the default controller on doubles with gap 30, both
speeds 20 and `dt = 0.5`: `e = 1`, `dv = 0.68`, `err = 0.6799999999999997`, and
the command is `0.5779999999999998`. -/
theorem ACC64.Step_headway_law_f64_witness :
    F64.lt F64.zero (F64.ofRat 1 2) = true ∧
    (ACC64.defaults.UpdateMode (F64.ofRat 30 1) (F64.ofRat 20 1) (F64.ofRat 20 1)).mode =
      ACCMode.Headway ∧
    (ACC64.defaults.Step (F64.ofRat 30 1) (F64.ofRat 20 1) (F64.ofRat 20 1) (F64.ofRat 27 1)
        (F64.ofRat 1 2)).1 =
      F64.clamp
        (F64.add
          (F64.mul ACC64.defaults.Kp_v (F64.ofRat 6799999999999997 10000000000000000))
          (F64.mul ACC64.defaults.Ki_v
            (F64.add ACC64.defaults.integ_v
              (F64.mul (F64.ofRat 6799999999999997 10000000000000000) (F64.ofRat 1 2)))))
        ACC64.defaults.a_min ACC64.defaults.a_max ∧
    (ACC64.defaults.Step (F64.ofRat 30 1) (F64.ofRat 20 1) (F64.ofRat 20 1) (F64.ofRat 27 1)
        (F64.ofRat 1 2)).2.integ_v =
      F64.add ACC64.defaults.integ_v
        (F64.mul (F64.ofRat 6799999999999997 10000000000000000) (F64.ofRat 1 2)) ∧
    (ACC64.defaults.Step (F64.ofRat 30 1) (F64.ofRat 20 1) (F64.ofRat 20 1) (F64.ofRat 27 1)
        (F64.ofRat 1 2)).2.prev_err_h = F64.ofRat 1 1 :=
  have hw := ACC64.Step_headway_law_f64 ACC64.defaults (F64.ofRat 30 1) (F64.ofRat 20 1)
    (F64.ofRat 20 1) (F64.ofRat 27 1) (F64.ofRat 1 2) (F64.ofRat 1 1) (F64.ofRat 68 100)
    (F64.ofRat 6799999999999997 10000000000000000)
    (by decide!) (by decide!) (by decide!) (by decide!) (by decide!)
  ⟨by decide!, by decide!, hw.2.1, hw.2.2.2.1, hw.2.2.2.2⟩

/-! ## Binary64: non-positive `dt` -/

/-- Claim C16, as stated, fails: `Step` has no error outcome and does not test
`dt`. On the default controller with gap 50, ego speed 20 and set point 27, the
call with `dt = 0` returns the command 2 (the derivative `7 / 0` is `+inf`, the
clamp gives `a_max`) and stores `prev_err_c = 7`; the call with `dt = -1` returns
2 and moves `integ_c` from 0 to `-7`. -/
theorem ACC64.Step_nonpositive_dt_counterexample :
    F64.le F64.zero F64.zero = true ∧
    (ACC64.defaults.Step (F64.ofRat 50 1) (F64.ofRat 20 1) (F64.ofRat 27 1) (F64.ofRat 27 1)
      F64.zero).1 = F64.ofRat 2 1 ∧
    ACC64.defaults.prev_err_c = F64.zero ∧
    (ACC64.defaults.Step (F64.ofRat 50 1) (F64.ofRat 20 1) (F64.ofRat 27 1) (F64.ofRat 27 1)
      F64.zero).2.prev_err_c = F64.ofRat 7 1 ∧
    F64.le (F64.ofRat (-1) 1) F64.zero = true ∧
    (ACC64.defaults.Step (F64.ofRat 50 1) (F64.ofRat 20 1) (F64.ofRat 27 1) (F64.ofRat 27 1)
      (F64.ofRat (-1) 1)).1 = F64.ofRat 2 1 ∧
    ACC64.defaults.integ_c = F64.zero ∧
    (ACC64.defaults.Step (F64.ofRat 50 1) (F64.ofRat 20 1) (F64.ofRat 27 1) (F64.ofRat 27 1)
      (F64.ofRat (-1) 1)).2.integ_c = F64.ofRat (-7) 1 := by
  decide!

/-- On doubles too the control laws never write the mode. -/
theorem ACC64.Step_mode_f64 (s : ACC64) (dist v_ego v_lead v_set dt : F64) :
    (s.Step dist v_ego v_lead v_set dt).2.mode = (s.UpdateMode dist v_ego v_lead).mode := by
  cases h : (s.UpdateMode dist v_ego v_lead).mode
  · rw [ACC64.Step_cruise_eq_f64 s dist v_ego v_lead v_set dt h]
  · rw [ACC64.Step_headway_eq_f64 s dist v_ego v_lead v_set dt h]
  · rw [ACC64.Step_override_eq s dist v_ego v_lead v_set dt h]

/-- Claim C16, amended: a `Step` call with `dt ≤ 0` is not rejected; `Step` has
no error outcome and does not test `dt`. For every `dt`, zero and negative values
included, and `a_min ≤ a_max`, it returns a double that is a NaN or lies in
`[a_min, a_max]` (`a_min` itself when the tick resolves to `Override`), leaves
the controller in the resolved mode, and advances the loop state by the same
rules as for `dt > 0`: a tick that resolves to `Cruise` sets `integ_c` to
`integ_c + (v_set − v_ego)·dt` and `prev_err_c` to `v_set − v_ego`; a tick that
resolves to `Headway` sets `integ_h` to `integ_h + e·dt` and `prev_err_h` to `e`,
with `e = distance − DesiredSpacing(v_ego)`. -/
theorem ACC64.Step_nonpositive_dt_accepted (s : ACC64) (dist v_ego v_lead v_set dt : F64)
    (hlim : F64.le s.a_min s.a_max = true) :
    ((s.Step dist v_ego v_lead v_set dt).1 = F64.nan ∨
      (F64.le s.a_min (s.Step dist v_ego v_lead v_set dt).1 = true ∧
        F64.le (s.Step dist v_ego v_lead v_set dt).1 s.a_max = true)) ∧
    (s.Step dist v_ego v_lead v_set dt).2.mode = (s.UpdateMode dist v_ego v_lead).mode ∧
    ((s.UpdateMode dist v_ego v_lead).mode = ACCMode.Override →
      (s.Step dist v_ego v_lead v_set dt).1 = s.a_min) ∧
    ((s.UpdateMode dist v_ego v_lead).mode = ACCMode.Cruise →
      (s.Step dist v_ego v_lead v_set dt).2.integ_c =
        F64.add s.integ_c (F64.mul (F64.sub v_set v_ego) dt) ∧
      (s.Step dist v_ego v_lead v_set dt).2.prev_err_c = F64.sub v_set v_ego) ∧
    ((s.UpdateMode dist v_ego v_lead).mode = ACCMode.Headway →
      (s.Step dist v_ego v_lead v_set dt).2.integ_h =
        F64.add s.integ_h (F64.mul (F64.sub dist (s.DesiredSpacing v_ego)) dt) ∧
      (s.Step dist v_ego v_lead v_set dt).2.prev_err_h =
        F64.sub dist (s.DesiredSpacing v_ego)) := by
  refine ⟨ACC64.Step_nan_or_bounded s dist v_ego v_lead v_set dt hlim,
    ACC64.Step_mode_f64 s dist v_ego v_lead v_set dt, ?_, ?_, ?_⟩
  · intro h
    rw [ACC64.Step_override_eq s dist v_ego v_lead v_set dt h]
  · intro h
    rw [ACC64.Step_cruise_eq_f64 s dist v_ego v_lead v_set dt h]
    exact ⟨rfl, rfl⟩
  · intro h
    rw [ACC64.Step_headway_eq_f64 s dist v_ego v_lead v_set dt h]
    exact ⟨rfl, rfl⟩

/-- The default controller on doubles with `dt = 0`, gap 50, ego speed 20 and set
point 27: the tick resolves to `Cruise`, the command is within `[-8, 2]` or a
NaN, and `prev_err_c` becomes `27 - 20`. -/
theorem ACC64.Step_nonpositive_dt_accepted_witness :
    F64.le F64.zero F64.zero = true ∧
    F64.le ACC64.defaults.a_min ACC64.defaults.a_max = true ∧
    (ACC64.defaults.UpdateMode (F64.ofRat 50 1) (F64.ofRat 20 1) (F64.ofRat 27 1)).mode =
      ACCMode.Cruise ∧
    ((ACC64.defaults.Step (F64.ofRat 50 1) (F64.ofRat 20 1) (F64.ofRat 27 1) (F64.ofRat 27 1)
        F64.zero).1 = F64.nan ∨
      (F64.le ACC64.defaults.a_min
          (ACC64.defaults.Step (F64.ofRat 50 1) (F64.ofRat 20 1) (F64.ofRat 27 1)
            (F64.ofRat 27 1) F64.zero).1 = true ∧
        F64.le
          (ACC64.defaults.Step (F64.ofRat 50 1) (F64.ofRat 20 1) (F64.ofRat 27 1)
            (F64.ofRat 27 1) F64.zero).1 ACC64.defaults.a_max = true)) ∧
    (ACC64.defaults.Step (F64.ofRat 50 1) (F64.ofRat 20 1) (F64.ofRat 27 1) (F64.ofRat 27 1)
        F64.zero).2.prev_err_c = F64.sub (F64.ofRat 27 1) (F64.ofRat 20 1) :=
  have hw := ACC64.Step_nonpositive_dt_accepted ACC64.defaults (F64.ofRat 50 1)
    (F64.ofRat 20 1) (F64.ofRat 27 1) (F64.ofRat 27 1) F64.zero (by decide!)
  ⟨by decide!, by decide!, by decide!, hw.1, (hw.2.2.2.1 (by decide!)).2⟩

/-! ## Binary64: rounding is monotone -/

/-- With enough fuel, `log2Fuel` is the floor of the binary logarithm. -/
theorem F64.log2Fuel_eq_log (fuel : Nat) :
    ∀ n : Nat, n ≤ fuel → F64.log2Fuel fuel n = Nat.log 2 n := by
  induction fuel with
  | zero =>
    intro n hn
    have h0 : n = 0 := by omega
    subst h0
    simp [F64.log2Fuel]
  | succ k ih =>
    intro n hn
    simp only [F64.log2Fuel]
    split_ifs with h2
    · exact (Nat.log_of_lt h2).symm
    · rw [ih (n / 2) (by omega)]
      exact (Nat.log_of_one_lt_of_le (by norm_num) (by omega)).symm

/-- Rounding to the nearest integer moves by less than one. -/
theorem F64.roundHalfEven_bounds (a d : Nat) :
    a / d ≤ F64.roundHalfEven a d ∧ F64.roundHalfEven a d ≤ a / d + 1 := by
  unfold F64.roundHalfEven
  split_ifs <;> omega

/-- Quotients are ordered like the fractions they come from. -/
theorem F64.div_le_div_of_cross (a1 d1 a2 d2 : Nat) (hd1 : 0 < d1) (hd2 : 0 < d2)
    (h : a1 * d2 ≤ a2 * d1) : a1 / d1 ≤ a2 / d2 := by
  rw [Nat.le_div_iff_mul_le hd2]
  have h1 : a1 / d1 * d1 ≤ a1 := Nat.div_mul_le_self a1 d1
  have h2 : a1 / d1 * d2 * d1 ≤ a2 * d1 := by
    calc a1 / d1 * d2 * d1 = a1 / d1 * d1 * d2 := by ring
      _ ≤ a1 * d2 := Nat.mul_le_mul_right d2 h1
      _ ≤ a2 * d1 := h
  exact Nat.le_of_mul_le_mul_right h2 hd1

/-- Rounding to the nearest integer, ties to even, is monotone in the fraction. -/
theorem F64.roundHalfEven_mono (a1 d1 a2 d2 : Nat) (hd1 : 0 < d1) (hd2 : 0 < d2)
    (h : a1 * d2 ≤ a2 * d1) : F64.roundHalfEven a1 d1 ≤ F64.roundHalfEven a2 d2 := by
  have hq := F64.div_le_div_of_cross a1 d1 a2 d2 hd1 hd2 h
  rcases Nat.lt_or_ge (a1 / d1) (a2 / d2) with hlt | hge
  · have b1 := (F64.roundHalfEven_bounds a1 d1).2
    have b2 := (F64.roundHalfEven_bounds a2 d2).1
    omega
  · have heq : a1 / d1 = a2 / d2 := le_antisymm hq hge
    have e1 : d1 * (a1 / d1) + a1 % d1 = a1 := Nat.div_add_mod a1 d1
    have e2 : d2 * (a2 / d2) + a2 % d2 = a2 := Nat.div_add_mod a2 d2
    have hr1 : a1 % d1 < d1 := Nat.mod_lt _ hd1
    have hr2 : a2 % d2 < d2 := Nat.mod_lt _ hd2
    have hfrac : a1 % d1 * d2 ≤ a2 % d2 * d1 := by
      have h' : (d1 * (a1 / d1) + a1 % d1) * d2 ≤ (d2 * (a2 / d2) + a2 % d2) * d1 := by
        rw [e1, e2]
        exact h
      rw [heq] at h'
      nlinarith
    unfold F64.roundHalfEven
    rw [heq]
    generalize a2 / d2 = q
    generalize a1 % d1 = r1 at hr1 hfrac
    generalize a2 % d2 = r2 at hr2 hfrac
    have hA : d1 ≤ 2 * r1 → d2 ≤ 2 * r2 := by
      intro hh
      by_contra hc
      push_neg at hc
      nlinarith
    have hB : d1 < 2 * r1 → d2 < 2 * r2 := by
      intro hh
      by_contra hc
      push_neg at hc
      nlinarith
    split_ifs <;> omega

/-- Rounding an exact multiple gives the multiple. -/
theorem F64.roundHalfEven_mul (n d : Nat) (hd : 0 < d) : F64.roundHalfEven (n * d) d = n := by
  unfold F64.roundHalfEven
  rw [Nat.mul_mod_left, Nat.mul_div_cancel n hd]
  simp [hd]

/-- A fraction at most `n` rounds to at most `n`. -/
theorem F64.roundHalfEven_le (a d n : Nat) (hd : 0 < d) (h : a ≤ n * d) :
    F64.roundHalfEven a d ≤ n := by
  have := F64.roundHalfEven_mono a d (n * d) d hd hd (Nat.mul_le_mul_right d h)
  rwa [F64.roundHalfEven_mul n d hd] at this

/-- A fraction at least `n` rounds to at least `n`. -/
theorem F64.le_roundHalfEven (a d n : Nat) (hd : 0 < d) (h : n * d ≤ a) :
    n ≤ F64.roundHalfEven a d := by
  have := F64.roundHalfEven_mono (n * d) d a d hd hd (Nat.mul_le_mul_right d h)
  rwa [F64.roundHalfEven_mul n d hd] at this

/-- The magnitude rounding of `0` is `0`. -/
theorem F64.roundMag_zero (d : Nat) : F64.roundMag 0 d = 0 := by
  simp [F64.roundMag, F64.roundHalfEven]

/-- Rounding a magnitude to the binary64 grid is monotone in the exact value. -/
theorem F64.roundMag_mono (a1 d1 a2 d2 : Nat) (hd1 : 0 < d1) (hd2 : 0 < d2)
    (h : a1 * d2 ≤ a2 * d1) : F64.roundMag a1 d1 ≤ F64.roundMag a2 d2 := by
  have hq := F64.div_le_div_of_cross a1 d1 a2 d2 hd1 hd2 h
  unfold F64.roundMag
  rw [F64.log2Fuel_eq_log _ _ (le_refl _), F64.log2Fuel_eq_log _ _ (le_refl _)]
  have hlog : Nat.log 2 (a1 / d1) ≤ Nat.log 2 (a2 / d2) := Nat.log_mono_right hq
  have hup : a1 / d1 < 2 ^ (Nat.log 2 (a1 / d1) + 1) :=
    Nat.lt_pow_succ_log_self (by norm_num) _
  have ha1 : a1 < d1 * (a1 / d1 + 1) := Nat.lt_mul_div_succ a1 hd1
  have ha2 : d2 * (a2 / d2) ≤ a2 := Nat.mul_div_le a2 d2
  generalize hs1 : Nat.log 2 (a1 / d1) - 52 = s1
  generalize hs2 : Nat.log 2 (a2 / d2) - 52 = s2
  have hs : s1 ≤ s2 := by omega
  have hp1 : 0 < d1 * 2 ^ s1 := Nat.mul_pos hd1 (Nat.two_pow_pos s1)
  have hp2 : 0 < d2 * 2 ^ s2 := Nat.mul_pos hd2 (Nat.two_pow_pos s2)
  rcases Nat.eq_or_lt_of_le hs with heq | hlt
  · subst heq
    apply Nat.mul_le_mul_right
    apply F64.roundHalfEven_mono _ _ _ _ hp1 hp2
    calc a1 * (d2 * 2 ^ s1) = a1 * d2 * 2 ^ s1 := by ring
      _ ≤ a2 * d1 * 2 ^ s1 := Nat.mul_le_mul_right _ h
      _ = a2 * (d1 * 2 ^ s1) := by ring
  · -- the first value rounds to at most `2^(53 + s1)`, the second to at least `2^(52 + s2)`
    have hupper : F64.roundHalfEven a1 (d1 * 2 ^ s1) ≤ 2 ^ 53 := by
      apply F64.roundHalfEven_le _ _ _ hp1
      have hpow : 2 ^ (Nat.log 2 (a1 / d1) + 1) ≤ 2 ^ 53 * 2 ^ s1 := by
        rw [← pow_add]
        exact Nat.pow_le_pow_right (by norm_num) (by omega)
      calc a1 ≤ d1 * (a1 / d1 + 1) := ha1.le
        _ ≤ d1 * (2 ^ 53 * 2 ^ s1) := Nat.mul_le_mul_left _ (by omega)
        _ = 2 ^ 53 * (d1 * 2 ^ s1) := by ring
    have hlogeq : Nat.log 2 (a2 / d2) = 52 + s2 := by omega
    have hq2 : a2 / d2 ≠ 0 := by
      intro h0
      rw [h0, Nat.log_zero_right] at hlogeq
      omega
    have hlow2 : 2 ^ (52 + s2) ≤ a2 / d2 := by
      rw [← hlogeq]
      exact Nat.pow_log_le_self 2 hq2
    have hlower : 2 ^ 52 ≤ F64.roundHalfEven a2 (d2 * 2 ^ s2) := by
      apply F64.le_roundHalfEven _ _ _ hp2
      calc 2 ^ 52 * (d2 * 2 ^ s2) = d2 * 2 ^ (52 + s2) := by rw [pow_add]; ring
        _ ≤ d2 * (a2 / d2) := Nat.mul_le_mul_left _ hlow2
        _ ≤ a2 := ha2
    calc F64.roundHalfEven a1 (d1 * 2 ^ s1) * 2 ^ s1 ≤ 2 ^ 53 * 2 ^ s1 :=
          Nat.mul_le_mul_right _ hupper
      _ = 2 ^ (53 + s1) := by rw [pow_add]
      _ ≤ 2 ^ (52 + s2) := Nat.pow_le_pow_right (by norm_num) (by omega)
      _ = 2 ^ 52 * 2 ^ s2 := by rw [pow_add]
      _ ≤ F64.roundHalfEven a2 (d2 * 2 ^ s2) * 2 ^ s2 := Nat.mul_le_mul_right _ hlower

/-- A rounded value is never a NaN. -/
theorem F64.isNaN_round (neg : Bool) (a d : Nat) : (F64.round neg a d).isNaN = false := by
  unfold F64.round
  split_ifs <;> rfl

/-- A rounded value is in range. -/
theorem F64.inRange_round (neg : Bool) (a d : Nat) : (F64.round neg a d).inRange = true := by
  unfold F64.round
  split_ifs with h
  · simpa [F64.inRange] using h
  · rfl

/-- The position of a rounded value on the number line. -/
theorem F64.ord_round (neg : Bool) (a d : Nat) :
    (F64.round neg a d).ord =
      if neg then - (F64.roundCapped a d : Int) else (F64.roundCapped a d : Int) := by
  unfold F64.round F64.roundCapped
  split_ifs with h hneg hneg
  · simp [F64.ord, hneg, min_eq_left h.le]
  · simp [F64.ord, hneg, min_eq_left h.le]
  · simp [F64.ord, hneg, min_eq_right (not_lt.mp h)]
  · simp [F64.ord, hneg, min_eq_right (not_lt.mp h)]

/-- The capped rounding is monotone in the exact value. -/
theorem F64.roundCapped_mono (a1 d1 a2 d2 : Nat) (hd1 : 0 < d1) (hd2 : 0 < d2)
    (h : a1 * d2 ≤ a2 * d1) : F64.roundCapped a1 d1 ≤ F64.roundCapped a2 d2 := by
  unfold F64.roundCapped
  exact min_le_min (F64.roundMag_mono a1 d1 a2 d2 hd1 hd2 h) (le_refl _)

/-- The capped rounding of `0` is `0`. -/
theorem F64.roundCapped_zero (d : Nat) : F64.roundCapped 0 d = 0 := by
  unfold F64.roundCapped
  rw [F64.roundMag_zero]
  exact Nat.zero_min _

/-- The capped rounding stays at or below `2^2098`. -/
theorem F64.roundCapped_le (a d : Nat) : F64.roundCapped a d ≤ F64.overflowMag := by
  unfold F64.roundCapped
  exact min_le_right _ _

/-- Rounding an integer number of units is monotone. -/
theorem F64.roundInt_mono (k1 k2 : Int) (h : k1 ≤ k2) : F64.roundInt k1 ≤ F64.roundInt k2 := by
  unfold F64.roundInt
  split_ifs with h1 h2 h2
  · have := F64.roundCapped_mono k1.toNat 1 k2.toNat 1 Nat.one_pos Nat.one_pos (by omega)
    exact_mod_cast this
  · omega
  · have n1 : (0 : Int) ≤ (F64.roundCapped (-k1).toNat 1 : Int) := Int.natCast_nonneg _
    have n2 : (0 : Int) ≤ (F64.roundCapped k2.toNat 1 : Int) := Int.natCast_nonneg _
    omega
  · have := F64.roundCapped_mono (-k2).toNat 1 (-k1).toNat 1 Nat.one_pos Nat.one_pos (by omega)
    have : (F64.roundCapped (-k2).toNat 1 : Int) ≤ (F64.roundCapped (-k1).toNat 1 : Int) := by
      exact_mod_cast this
    omega

/-- The rounded value of an integer lies between the two infinities. -/
theorem F64.roundInt_bounds (k : Int) :
    - (F64.overflowMag : Int) ≤ F64.roundInt k ∧ F64.roundInt k ≤ (F64.overflowMag : Int) := by
  unfold F64.roundInt
  have hle : ∀ a, (F64.roundCapped a 1 : Int) ≤ (F64.overflowMag : Int) := fun a => by
    exact_mod_cast F64.roundCapped_le a 1
  have hnn : ∀ a, (0 : Int) ≤ (F64.roundCapped a 1 : Int) := fun a => Int.natCast_nonneg _
  split_ifs
  · have := hle k.toNat
    have := hnn k.toNat
    omega
  · have := hle (-k).toNat
    have := hnn (-k).toNat
    omega

/-- The sum of two finite doubles is never a NaN. -/
theorem F64.isNaN_add_fin (s t : Bool) (m n : Nat) :
    (F64.add (F64.fin s m) (F64.fin t n)).isNaN = false := by
  simp only [F64.add]
  split_ifs
  · exact F64.isNaN_round _ _ _
  · exact F64.isNaN_round _ _ _
  · exact F64.isNaN_round _ _ _
  · rfl


/-- The position of a finite double with a clear sign bit. -/
theorem F64.ord_fin_false (m : Nat) : (F64.fin false m).ord = (m : Int) := by
  simp [F64.ord]

/-- The position of a finite double with the sign bit set. -/
theorem F64.ord_fin_true (m : Nat) : (F64.fin true m).ord = - (m : Int) := by
  simp [F64.ord]

/-- Rounding a non-negative integer number of units. -/
theorem F64.roundInt_natCast (a : Nat) : F64.roundInt (a : Int) = (F64.roundCapped a 1 : Int) := by
  unfold F64.roundInt
  rw [if_pos (Int.natCast_nonneg a), Int.toNat_natCast]

/-- Rounding a non-positive integer number of units. -/
theorem F64.roundInt_neg_natCast (a : Nat) :
    F64.roundInt (- (a : Int)) = - (F64.roundCapped a 1 : Int) := by
  rcases Nat.eq_zero_or_pos a with h0 | hpos
  · subst h0
    simp [F64.roundInt, F64.roundCapped_zero]
  · unfold F64.roundInt
    rw [if_neg (by omega), neg_neg, Int.toNat_natCast]

/-- The sum of two finite doubles sits where the rounding of the exact sum of
their positions sits. -/
theorem F64.ord_add_fin (s t : Bool) (m n : Nat) :
    (F64.add (F64.fin s m) (F64.fin t n)).ord =
      F64.roundInt ((F64.fin s m).ord + (F64.fin t n).ord) := by
  cases s <;> cases t
  · have e : F64.add (F64.fin false m) (F64.fin false n) = F64.round false (m + n) 1 := by
      simp only [F64.add, if_true]
    have k : ((m : Int) + (n : Int)) = ((m + n : Nat) : Int) := by push_cast; rfl
    rw [e, F64.ord_round, F64.ord_fin_false, F64.ord_fin_false, k, F64.roundInt_natCast]
    simp
  · rw [F64.ord_fin_false, F64.ord_fin_true]
    simp only [F64.add, Bool.false_eq_true, if_false]
    split_ifs with h1 h2
    · have k : ((m : Int) + - (n : Int)) = ((m - n : Nat) : Int) := by omega
      rw [F64.ord_round, k, F64.roundInt_natCast]
      simp
    · have k : ((m : Int) + - (n : Int)) = - ((n - m : Nat) : Int) := by omega
      rw [F64.ord_round, k, F64.roundInt_neg_natCast]
      simp
    · have k : ((m : Int) + - (n : Int)) = ((0 : Nat) : Int) := by omega
      rw [k, F64.roundInt_natCast, F64.roundCapped_zero, F64.ord_fin_false]
  · rw [F64.ord_fin_false, F64.ord_fin_true]
    simp only [F64.add, Bool.true_eq_false, if_false]
    split_ifs with h1 h2
    · have k : (- (m : Int) + (n : Int)) = - ((m - n : Nat) : Int) := by omega
      rw [F64.ord_round, k, F64.roundInt_neg_natCast]
      simp
    · have k : (- (m : Int) + (n : Int)) = ((n - m : Nat) : Int) := by omega
      rw [F64.ord_round, k, F64.roundInt_natCast]
      simp
    · have k : (- (m : Int) + (n : Int)) = ((0 : Nat) : Int) := by omega
      rw [k, F64.roundInt_natCast, F64.roundCapped_zero, F64.ord_fin_false]
  · have e : F64.add (F64.fin true m) (F64.fin true n) = F64.round true (m + n) 1 := by
      simp only [F64.add, if_true]
    have k : (- (m : Int) + - (n : Int)) = - ((m + n : Nat) : Int) := by push_cast; ring
    rw [e, F64.ord_round, F64.ord_fin_true, F64.ord_fin_true, k, F64.roundInt_neg_natCast]
    simp

/-- The position of `+inf`. -/
theorem F64.ord_inf_false : (F64.inf false).ord = (F64.overflowMag : Int) := by
  simp [F64.ord]

/-- The position of `-inf`. -/
theorem F64.ord_inf_true : (F64.inf true).ord = - (F64.overflowMag : Int) := by
  simp [F64.ord]

/-- A finite double is not a NaN. -/
theorem F64.isNaN_fin (s : Bool) (m : Nat) : (F64.fin s m).isNaN = false := rfl

/-- An infinity is not a NaN. -/
theorem F64.isNaN_inf (s : Bool) : (F64.inf s).isNaN = false := rfl

/-- Every product is in range. -/
theorem F64.inRange_mul (x y : F64) : (F64.mul x y).inRange = true := by
  cases x <;> cases y <;> simp only [F64.mul] <;>
    first
      | exact F64.inRange_round _ _ _
      | rfl
      | (split_ifs <;> rfl)

/-- Multiplication by a double above zero is monotone: for doubles `v1 < v2` in
range, the product with `v1` is not above the product with `v2`, unless one of
the two products is a NaN (an infinity times zero). -/
theorem F64.mul_mono_of_pos (h v1 v2 : F64) (hpos : F64.lt F64.zero h = true)
    (hr1 : v1.inRange = true) (hr2 : v2.inRange = true) (hv : F64.lt v1 v2 = true) :
    F64.mul h v1 = F64.nan ∨ F64.mul h v2 = F64.nan ∨
      F64.le (F64.mul h v1) (F64.mul h v2) = true := by
  obtain ⟨-, hh, hpos'⟩ := (F64.lt_iff _ _).mp hpos
  obtain ⟨hv1, hv2, hlt⟩ := (F64.lt_iff _ _).mp hv
  have hz : F64.zero.ord = 0 := by simp [F64.zero, F64.ord]
  rw [hz] at hpos'
  have hOM : 0 < F64.overflowMag := by
    unfold F64.overflowMag
    positivity
  cases h with
  | nan => simp [F64.isNaN] at hh
  | inf sh =>
    cases sh
    · cases v1 with
      | nan => simp [F64.isNaN] at hv1
      | inf t1 =>
        cases v2 with
        | nan => simp [F64.isNaN] at hv2
        | inf t2 =>
          right; right
          cases t1 <;> cases t2 <;>
            (simp [F64.mul, F64.le_iff, F64.isNaN_inf, F64.isNaN_fin, F64.ord_inf_false, F64.ord_inf_true,
              F64.ord_fin_false, F64.ord_fin_true] at hlt ⊢; try omega)
        | fin t2 n2 =>
          simp only [F64.mul]
          split_ifs with h0
          · exact Or.inr (Or.inl rfl)
          · right; right
            simp only [F64.inRange, decide_eq_true_eq] at hr2
            cases t1 <;> cases t2 <;>
              (simp [F64.le_iff, F64.isNaN_inf, F64.isNaN_fin, F64.ord_inf_false, F64.ord_inf_true,
                F64.ord_fin_false, F64.ord_fin_true] at hlt ⊢; try omega)
      | fin t1 n1 =>
        simp only [F64.inRange, decide_eq_true_eq] at hr1
        cases v2 with
        | nan => simp [F64.isNaN] at hv2
        | inf t2 =>
          simp only [F64.mul]
          split_ifs with h0
          · exact Or.inl rfl
          · right; right
            cases t1 <;> cases t2 <;>
              (simp [F64.le_iff, F64.isNaN_inf, F64.isNaN_fin, F64.ord_inf_false, F64.ord_inf_true,
                F64.ord_fin_false, F64.ord_fin_true] at hlt ⊢; try omega)
        | fin t2 n2 =>
          simp only [F64.mul]
          split_ifs with h1 h2 h2
          · exact Or.inl rfl
          · exact Or.inl rfl
          · exact Or.inr (Or.inl rfl)
          · right; right
            cases t1 <;> cases t2 <;>
              (simp [F64.le_iff, F64.isNaN_inf, F64.isNaN_fin, F64.ord_inf_false, F64.ord_inf_true,
                F64.ord_fin_false, F64.ord_fin_true] at hlt ⊢; try omega)
    · simp [F64.ord_inf_true, F64.ord_fin_true] at hpos'
      omega
  | fin sh mh =>
    cases sh
    · have hU : 0 < F64.unitsInOne := by
        unfold F64.unitsInOne
        positivity
      cases v1 with
      | nan => simp [F64.isNaN] at hv1
      | inf t1 =>
        cases v2 with
        | nan => simp [F64.isNaN] at hv2
        | inf t2 =>
          simp only [F64.mul]
          split_ifs with h0
          · exact Or.inl rfl
          · right; right
            cases t1 <;> cases t2 <;>
              (simp [F64.le_iff, F64.isNaN_inf, F64.isNaN_fin, F64.ord_inf_false, F64.ord_inf_true,
                F64.ord_fin_false, F64.ord_fin_true] at hlt ⊢; try omega)
        | fin t2 n2 =>
          simp only [F64.inRange, decide_eq_true_eq] at hr2
          have hc := F64.roundCapped_le (mh * n2) F64.unitsInOne
          simp only [F64.mul]
          split_ifs with h0
          · exact Or.inl rfl
          · right; right
            cases t1 <;> cases t2 <;>
              (simp [F64.le_iff, F64.isNaN_inf, F64.isNaN_fin, F64.isNaN_round, F64.ord_round,
                F64.ord_inf_false, F64.ord_inf_true, F64.ord_fin_false, F64.ord_fin_true]
                at hlt ⊢; try omega)
      | fin t1 n1 =>
        simp only [F64.inRange, decide_eq_true_eq] at hr1
        have hc1 := F64.roundCapped_le (mh * n1) F64.unitsInOne
        cases v2 with
        | nan => simp [F64.isNaN] at hv2
        | inf t2 =>
          simp only [F64.mul]
          split_ifs with h0
          · exact Or.inr (Or.inl rfl)
          · right; right
            cases t1 <;> cases t2 <;>
              (simp [F64.le_iff, F64.isNaN_inf, F64.isNaN_fin, F64.isNaN_round, F64.ord_round,
                F64.ord_inf_false, F64.ord_inf_true, F64.ord_fin_false, F64.ord_fin_true]
                at hlt ⊢; try omega)
        | fin t2 n2 =>
          have hc2 := F64.roundCapped_le (mh * n2) F64.unitsInOne
          have m12 : n1 ≤ n2 → F64.roundCapped (mh * n1) F64.unitsInOne ≤
              F64.roundCapped (mh * n2) F64.unitsInOne := fun hle =>
            F64.roundCapped_mono _ _ _ _ hU hU
              (Nat.mul_le_mul_right _ (Nat.mul_le_mul_left _ hle))
          have m21 : n2 ≤ n1 → F64.roundCapped (mh * n2) F64.unitsInOne ≤
              F64.roundCapped (mh * n1) F64.unitsInOne := fun hle =>
            F64.roundCapped_mono _ _ _ _ hU hU
              (Nat.mul_le_mul_right _ (Nat.mul_le_mul_left _ hle))
          right; right
          cases t1 <;> cases t2 <;>
            (simp [F64.mul, F64.le_iff, F64.isNaN_round, F64.ord_round, F64.ord_fin_false,
              F64.ord_fin_true] at hlt ⊢; try omega)
    · simp [F64.ord_inf_true, F64.ord_fin_true] at hpos'
      omega

/-- A sum with a NaN on the right is a NaN. -/
theorem F64.add_nan_right (x : F64) : F64.add x F64.nan = F64.nan := by
  cases x <;> rfl

/-- Addition of a fixed double is monotone: for doubles `p1 ≤ p2` in range, the
sum with `p1` is not above the sum with `p2`, unless one of the two sums is a NaN
(infinities of opposite sign). -/
theorem F64.add_mono_right (d p1 p2 : F64) (hr1 : p1.inRange = true)
    (hr2 : p2.inRange = true) (h : F64.le p1 p2 = true) :
    F64.add d p1 = F64.nan ∨ F64.add d p2 = F64.nan ∨
      F64.le (F64.add d p1) (F64.add d p2) = true := by
  obtain ⟨hn1, hn2, hle⟩ := (F64.le_iff _ _).mp h
  have hOM : 0 < F64.overflowMag := by
    unfold F64.overflowMag
    positivity
  cases d with
  | nan => exact Or.inl (by cases p1 <;> rfl)
  | inf u =>
    cases p1 with
    | nan => simp [F64.isNaN] at hn1
    | fin t1 n1 =>
      cases p2 with
      | nan => simp [F64.isNaN] at hn2
      | fin t2 n2 =>
        right; right
        simp [F64.add, F64.le_iff, F64.isNaN_inf]
      | inf t2 =>
        simp only [F64.add]
        split_ifs with he
        · right; right
          simp [F64.le_iff, F64.isNaN_inf]
        · exact Or.inr (Or.inl rfl)
    | inf t1 =>
      cases p2 with
      | nan => simp [F64.isNaN] at hn2
      | fin t2 n2 =>
        simp only [F64.add]
        split_ifs with he
        · right; right
          simp [F64.le_iff, F64.isNaN_inf]
        · exact Or.inl rfl
      | inf t2 =>
        simp only [F64.add]
        split_ifs with he1 he2 he2
        · right; right
          simp [F64.le_iff, F64.isNaN_inf]
        · exact Or.inr (Or.inl rfl)
        · exact Or.inl rfl
        · exact Or.inl rfl
  | fin s m =>
    cases p1 with
    | nan => simp [F64.isNaN] at hn1
    | fin t1 n1 =>
      simp only [F64.inRange, decide_eq_true_eq] at hr1
      cases p2 with
      | nan => simp [F64.isNaN] at hn2
      | fin t2 n2 =>
        right; right
        rw [F64.le_iff, F64.isNaN_add_fin, F64.isNaN_add_fin, F64.ord_add_fin, F64.ord_add_fin]
        exact ⟨rfl, rfl, F64.roundInt_mono _ _ (by omega)⟩
      | inf t2 =>
        right; right
        have hb := F64.roundInt_bounds ((F64.fin s m).ord + (F64.fin t1 n1).ord)
        have e2 : F64.add (F64.fin s m) (F64.inf t2) = F64.inf t2 := rfl
        rw [e2, F64.le_iff, F64.isNaN_add_fin, F64.ord_add_fin]
        cases t1 <;> cases t2 <;>
          simp [F64.isNaN_inf, F64.ord_inf_false, F64.ord_inf_true, F64.ord_fin_false,
            F64.ord_fin_true] at hle hb ⊢ <;> omega
    | inf t1 =>
      cases p2 with
      | nan => simp [F64.isNaN] at hn2
      | fin t2 n2 =>
        simp only [F64.inRange, decide_eq_true_eq] at hr2
        right; right
        have hb := F64.roundInt_bounds ((F64.fin s m).ord + (F64.fin t2 n2).ord)
        have e1 : F64.add (F64.fin s m) (F64.inf t1) = F64.inf t1 := rfl
        rw [e1, F64.le_iff, F64.isNaN_add_fin, F64.ord_add_fin]
        cases t1 <;> cases t2 <;>
          simp [F64.isNaN_inf, F64.ord_inf_false, F64.ord_inf_true, F64.ord_fin_false,
            F64.ord_fin_true] at hle hb ⊢ <;> omega
      | inf t2 =>
        right; right
        have e1 : F64.add (F64.fin s m) (F64.inf t1) = F64.inf t1 := rfl
        have e2 : F64.add (F64.fin s m) (F64.inf t2) = F64.inf t2 := rfl
        rw [e1, e2]
        exact h

/-- With `d` finite and `h` finite and above zero, `d + h · v` is not a NaN for
any `v` that is not a NaN. -/
theorem F64.isNaN_add_mul_of_finite (d h v : F64) (hd : d.isFinite = true)
    (hh : h.isFinite = true) (hpos : F64.lt F64.zero h = true) (hv : v.isNaN = false) :
    (F64.add d (F64.mul h v)).isNaN = false := by
  obtain ⟨-, -, hpos'⟩ := (F64.lt_iff _ _).mp hpos
  cases d with
  | nan => simp [F64.isFinite] at hd
  | inf u => simp [F64.isFinite] at hd
  | fin s m =>
    cases h with
    | nan => simp [F64.isFinite] at hh
    | inf u => simp [F64.isFinite] at hh
    | fin sh mh =>
      have hmh : mh ≠ 0 := by
        intro h0
        subst h0
        cases sh <;> simp [F64.zero, F64.ord] at hpos'
      cases v with
      | nan => simp [F64.isNaN] at hv
      | inf t =>
        simp only [F64.mul, hmh, if_false]
        rfl
      | fin t n =>
        simp only [F64.mul]
        cases hr : F64.round (xor sh t) (mh * n) F64.unitsInOne with
        | nan =>
          have := F64.isNaN_round (xor sh t) (mh * n) F64.unitsInOne
          rw [hr] at this
          exact absurd this (by decide)
        | inf u => rfl
        | fin u k => exact F64.isNaN_add_fin _ _ _ _

/-! ## Binary64: desired spacing as a function of speed -/

/-- Claim C13, as stated, fails on doubles: with the default `headway = 1.2 > 0`
and `d0 = 5`, the speeds `1.0` and `1.0 + 2^-52` are distinct, yet
`1.2 · v` rounds to the same double once `5` is added: both desired spacings are
the double `6.2`. -/
theorem ACC64.DesiredSpacing_collision_counterexample :
    F64.lt F64.zero ACC64.defaults.headway = true ∧
    F64.lt (F64.ofRat 1 1) (F64.ofRat (2 ^ 52 + 1) (2 ^ 52)) = true ∧
    ACC64.defaults.DesiredSpacing (F64.ofRat 1 1) = F64.ofRat 62 10 ∧
    ACC64.defaults.DesiredSpacing (F64.ofRat (2 ^ 52 + 1) (2 ^ 52)) = F64.ofRat 62 10 ∧
    F64.lt (ACC64.defaults.DesiredSpacing (F64.ofRat 1 1))
      (ACC64.defaults.DesiredSpacing (F64.ofRat (2 ^ 52 + 1) (2 ^ 52))) = false := by
  decide!

/-- Claim C13, amended: for every configuration with `headway > 0` and all ego
speeds `v1 < v2` (doubles, so of magnitude below `2^1024`),
`DesiredSpacing(v1) ≤ DesiredSpacing(v2)` unless one of the two values is a NaN,
and neither is a NaN when `d0` and `headway` are finite: the desired spacing is
non-decreasing in the ego speed, not strictly increasing. -/
theorem ACC64.DesiredSpacing_mono (s : ACC64) (v1 v2 : F64)
    (hh : F64.lt F64.zero s.headway = true)
    (hr1 : v1.inRange = true) (hr2 : v2.inRange = true) (hv : F64.lt v1 v2 = true) :
    (s.DesiredSpacing v1 = F64.nan ∨ s.DesiredSpacing v2 = F64.nan ∨
      F64.le (s.DesiredSpacing v1) (s.DesiredSpacing v2) = true) ∧
    (s.d0.isFinite = true → s.headway.isFinite = true →
      F64.le (s.DesiredSpacing v1) (s.DesiredSpacing v2) = true) := by
  have hmain : s.DesiredSpacing v1 = F64.nan ∨ s.DesiredSpacing v2 = F64.nan ∨
      F64.le (s.DesiredSpacing v1) (s.DesiredSpacing v2) = true := by
    unfold ACC64.DesiredSpacing
    rcases F64.mul_mono_of_pos s.headway v1 v2 hh hr1 hr2 hv with h1 | h2 | h3
    · rw [h1, F64.add_nan_right]
      exact Or.inl rfl
    · rw [h2, F64.add_nan_right]
      exact Or.inr (Or.inl rfl)
    · exact F64.add_mono_right s.d0 _ _ (F64.inRange_mul _ _) (F64.inRange_mul _ _) h3
  refine ⟨hmain, fun hd0 hhw => ?_⟩
  obtain ⟨hnv1, hnv2, -⟩ := (F64.lt_iff _ _).mp hv
  have k1 := F64.isNaN_add_mul_of_finite s.d0 s.headway v1 hd0 hhw hh hnv1
  have k2 := F64.isNaN_add_mul_of_finite s.d0 s.headway v2 hd0 hhw hh hnv2
  rcases hmain with h1 | h2 | h3
  · rw [ACC64.DesiredSpacing] at h1
    rw [h1] at k1
    exact absurd k1 (by decide)
  · rw [ACC64.DesiredSpacing] at h2
    rw [h2] at k2
    exact absurd k2 (by decide)
  · exact h3

/-- The default configuration on doubles at the ego speeds 10 and 20: the desired
spacings are 17 and 29, neither a NaN, and the first is not above the second. -/
theorem ACC64.DesiredSpacing_mono_witness :
    F64.lt F64.zero ACC64.defaults.headway = true ∧
    (F64.ofRat 10 1).inRange = true ∧ (F64.ofRat 20 1).inRange = true ∧
    F64.lt (F64.ofRat 10 1) (F64.ofRat 20 1) = true ∧
    ACC64.defaults.DesiredSpacing (F64.ofRat 10 1) = F64.ofRat 17 1 ∧
    ACC64.defaults.DesiredSpacing (F64.ofRat 20 1) = F64.ofRat 29 1 ∧
    ACC64.defaults.d0.isFinite = true ∧ ACC64.defaults.headway.isFinite = true ∧
    F64.le (ACC64.defaults.DesiredSpacing (F64.ofRat 10 1))
      (ACC64.defaults.DesiredSpacing (F64.ofRat 20 1)) = true :=
  ⟨by decide!, by decide!, by decide!, by decide!, by decide!, by decide!,
    by decide!, by decide!,
    (ACC64.DesiredSpacing_mono ACC64.defaults (F64.ofRat 10 1) (F64.ofRat 20 1)
      (by decide!) (by decide!) (by decide!) (by decide!)).2 (by decide!) (by decide!)⟩
